/-
  Verification of the aggregation / period-comparison engine of the
  bigway-food-delivery-dashboard repository.

  JavaScript numbers are modelled by the inductive type `JSNum`:
  NaN, +Infinity, -Infinity, or a finite value carried as an exact
  rational (we do not model rounding; -0 is collapsed into 0, which
  agrees with JS `===` and truthiness).  Nullable numbers
  (`number | null`) are `Option JSNum`.
-/
import Mathlib

namespace Dashboard

/-- Model of a JavaScript `number`: NaN, the two infinities, or a finite
value represented exactly as a rational. -/
inductive JSNum : Type
  | nan : JSNum
  | inf : JSNum
  | negInf : JSNum
  | fin : ℚ → JSNum
  deriving DecidableEq, Repr

namespace JSNum

/-- JS truthiness of a number: falsy exactly for `0`, `-0` and `NaN`. -/
def truthy : JSNum → Bool
  | nan => false
  | fin q => q ≠ 0
  | _ => true

/-- `Number.isFinite`. -/
def isFinite : JSNum → Bool
  | fin _ => true
  | _ => false

/-- IEEE-754 addition restricted to the cases JS exposes
(finite values exact, -0 collapsed). -/
def add : JSNum → JSNum → JSNum
  | nan, _ => nan
  | _, nan => nan
  | inf, negInf => nan
  | negInf, inf => nan
  | inf, _ => inf
  | _, inf => inf
  | negInf, _ => negInf
  | _, negInf => negInf
  | fin a, fin b => fin (a + b)

/-- IEEE-754 negation. -/
def neg : JSNum → JSNum
  | nan => nan
  | inf => negInf
  | negInf => inf
  | fin a => fin (-a)

/-- IEEE-754 subtraction: `a - b = a + (-b)`. -/
def sub (a b : JSNum) : JSNum := add a (neg b)

/-- IEEE-754 multiplication (`0 * ±Infinity = NaN`). -/
def mul : JSNum → JSNum → JSNum
  | nan, _ => nan
  | _, nan => nan
  | inf, inf => inf
  | inf, negInf => negInf
  | negInf, inf => negInf
  | negInf, negInf => inf
  | inf, fin b => if b = 0 then nan else if 0 < b then inf else negInf
  | fin a, inf => if a = 0 then nan else if 0 < a then inf else negInf
  | negInf, fin b => if b = 0 then nan else if 0 < b then negInf else inf
  | fin a, negInf => if a = 0 then nan else if 0 < a then negInf else inf
  | fin a, fin b => fin (a * b)

/-- IEEE-754 division (zero is treated as +0 since -0 is collapsed):
`x / 0` is `±Infinity` for nonzero finite `x`, `0 / 0 = NaN`,
`±Infinity / ±Infinity = NaN`, `finite / ±Infinity = 0`. -/
def div : JSNum → JSNum → JSNum
  | nan, _ => nan
  | _, nan => nan
  | inf, inf => nan
  | inf, negInf => nan
  | negInf, inf => nan
  | negInf, negInf => nan
  | inf, fin b => if 0 ≤ b then inf else negInf
  | negInf, fin b => if 0 ≤ b then negInf else inf
  | fin _, inf => fin 0
  | fin _, negInf => fin 0
  | fin a, fin b =>
      if b = 0 then (if a = 0 then nan else if 0 < a then inf else negInf)
      else fin (a / b)

/-- JS strict comparison `a > b` (false whenever either side is NaN). -/
def gt : JSNum → JSNum → Bool
  | nan, _ => false
  | _, nan => false
  | inf, inf => false
  | inf, _ => true
  | _, inf => false
  | negInf, negInf => false
  | negInf, _ => false
  | _, negInf => true
  | fin a, fin b => b < a

/-- JS comparison `a <= b` (false whenever either side is NaN). -/
def le : JSNum → JSNum → Bool
  | nan, _ => false
  | _, nan => false
  | inf, inf => true
  | inf, _ => false
  | _, inf => true
  | negInf, _ => true
  | _, negInf => false
  | fin a, fin b => a ≤ b

/-- The idiom `Number(x) || 0`: falsy values (`0`, `NaN`) become `0`,
everything else (including the infinities) passes through unchanged. -/
def orZero (x : JSNum) : JSNum := if truthy x then x else fin 0

end JSNum

/-- JS truthiness of a `number | null` value (`null` is falsy). -/
def jsTruthyOpt : Option JSNum → Bool
  | none => false
  | some x => x.truthy

/-!
## Delta calculators (`calcMom`)

The repository contains two different `calcMom` functions.
-/

/-- `calcMom` from `src/hooks/useDashboardData.ts`:
`if (!prev || prev === 0) return null; return (curr - prev) / prev;`.
Arguments are modelled as nullable so that behaviour on a `null`
argument (falsy in JS) is also covered; `curr - prev` on a `null`
`curr` coerces `null` to `0` as JS's binary `-` does. -/
def calcMomDash (curr prev : Option JSNum) : Option JSNum :=
  if !(jsTruthyOpt prev) then none
  else
    let c := curr.getD (JSNum.fin 0)
    let p := prev.getD (JSNum.fin 0)
    some ((c.sub p).div p)

/-- `calcMom` from `src/components/UberAdsPanel.tsx`
(`src/unnamed/part_001` lines 80–91): returns `null` when either
argument is `null` or non-finite or `prev === 0`, otherwise the exact
relative change. -/
def calcMomPanel (curr prev : Option JSNum) : Option JSNum :=
  match curr, prev with
  | none, _ => none
  | _, none => none
  | some c, some p =>
      if !c.isFinite ∨ !p.isFinite ∨ p = JSNum.fin 0 then none
      else some ((c.sub p).div p)

/-- `calcMom` from `src/hooks/usePlatformMatrix.ts`:
`if (previous === null || previous === 0) return null;`. -/
def calcMomMatrix (current : JSNum) (previous : Option JSNum) : Option JSNum :=
  match previous with
  | none => none
  | some p =>
      if p = JSNum.fin 0 then none
      else some ((current.sub p).div p)

/-!
## Ratio calculators
-/

/-- The AOV ternary used throughout `useDashboardData.ts` (e.g. lines
205–208): `orders > 0 ? revenue / orders : 0`. -/
def aov (revenue orders : JSNum) : JSNum :=
  if orders.gt (JSNum.fin 0) then revenue.div orders else JSNum.fin 0

/-- `calcSales` from `src/components/UberAdsPanel.tsx`
(`src/unnamed/part_001` lines 104–110): derives ad sales as
`(spend ?? 0) * (roas ?? 0)`, returning `null` when the product is not
finite or is `<= 0`. -/
def calcSales (spend roas : Option JSNum) : Option JSNum :=
  let s := spend.getD (JSNum.fin 0)
  let r := roas.getD (JSNum.fin 0)
  let sales := s.mul r
  if !sales.isFinite ∨ sales.le (JSNum.fin 0) then none else some sales

/-- Proleptic-Gregorian leap-year rule, as implemented by ECMAScript
`Date`. -/
def isLeap (year : ℤ) : Bool :=
  (year % 4 = 0 ∧ year % 100 ≠ 0) ∨ year % 400 = 0

/-- The `daysInMonth` IIFE of `src/hooks/useUberAdsMetrics.ts` (lines
92–98) computes `new Date(Date.UTC(year, month + 1, 0)).getUTCDate()`
for the year/month parsed out of the current-month ISO string, i.e. the
calendar day count of that month of the proleptic Gregorian calendar
(this definition is that day count, `month` being 1-based; the
`NaN`-date fallback of 30 applies only to unparsable strings, which are
not period keys). -/
def daysInMonth (year : ℤ) (month : ℕ) : ℕ :=
  if month = 2 then (if isLeap year then 29 else 28)
  else if month = 4 ∨ month = 6 ∨ month = 9 ∨ month = 11 then 30
  else 31

/-- The `daily_spend` computation of `useUberAdsMetrics.ts` (lines
151–153): `currSpend != null ? currSpend / daysInMonth : null`. -/
def daily_spend (spend : Option JSNum) (days : ℕ) : Option JSNum :=
  match spend with
  | none => none
  | some s => some (s.div (JSNum.fin days))

/-!
## A model of `Array.prototype.sort`

`Array.prototype.sort(cmp)` is a stable comparison sort (ECMAScript
2019 onwards); for a consistent comparator every stable comparison sort
produces the same output, so it is modelled by a stable insertion sort
parameterised by a JS-style three-way comparator.
-/

/-- Insert `x` into `l` just before the first element `y` with
`cmp x y < 0`; `x` lands after any element comparing equal to it, which
is what stability of the sort requires for an element arriving later. -/
def insertCmp {α : Type} (cmp : α → α → Int) (x : α) : List α → List α
  | [] => [x]
  | y :: ys => if cmp x y < 0 then x :: y :: ys else y :: insertCmp cmp x ys

/-- Stable sort by a JS comparator: fold the input left to right,
inserting each element into the already-sorted prefix. -/
def jsSort {α : Type} (cmp : α → α → Int) (l : List α) : List α :=
  l.foldl (fun acc x => insertCmp cmp x acc) []

/-- The default (comparator-less) JS string sort order, and the model
used for `localeCompare` ties to store names: three-way comparison of
strings. -/
def strCmp (a b : String) : Int := if a < b then -1 else if b < a then 1 else 0

/-!
## Period index
-/

/-- `new Set(xs)` iterated back into an array: first-occurrence
deduplication. -/
def setDedup {α : Type} [DecidableEq α] (l : List α) : List α :=
  l.foldl (fun acc x => if x ∈ acc then acc else acc ++ [x]) []

/-- `Array.from(new Set(rows.map(r => r.month))).sort()` from
`useDashboardData.ts` line 112 / `usePlatformMatrix.ts` line 96,
applied to the list of month keys. -/
def periodIndex (months : List String) : List String :=
  jsSort strCmp (setDedup months)

/-- JS `indexOf` / `findIndex` on an array: the index of the first
occurrence, or `-1` when absent. -/
def jsIndexOf {α : Type} [DecidableEq α] (l : List α) (a : α) : ℤ :=
  if a ∈ l then (l.indexOf a : ℤ) else -1

/-- `prevMonthSelection` from `ExecutiveSummary.tsx` lines 376–379 (and
the `prevMonth` computation of `useDashboardData.ts` lines 120–121):
`selectedIndex <= 0 ? null : allMonths[selectedIndex - 1]`. -/
def prevMonthSelection (allMonths : List String) (selectedMonth : String) :
    Option String :=
  let idx := jsIndexOf allMonths selectedMonth
  if idx ≤ 0 then none else allMonths[(idx - 1).toNat]?

/-- `yoyMonthSelection` from `ExecutiveSummary.tsx` lines 381–384:
`selectedIndex < 12 ? null : allMonths[selectedIndex - 12]`. -/
def yoyMonthSelection (allMonths : List String) (selectedMonth : String) :
    Option String :=
  let idx := jsIndexOf allMonths selectedMonth
  if idx < 12 then none else allMonths[(idx - 12).toNat]?

/-!
## Dimensional aggregation (`sumForMonths`)
-/

/-- A raw sales record as consumed by `ExecutiveSummary.tsx` /
`useDashboardData.ts`. -/
structure SalesRow where
  month : String
  region : String
  platform : String
  revenue : JSNum
  orders : JSNum
  deriving DecidableEq, Repr

/-- The accumulation loop of `sumForMonths` (`ExecutiveSummary.tsx`
lines 423–430): skip rows outside the month set or rejected by the
predicate, otherwise `revenue += Number(r.revenue) || 0` and
`orders += Number(r.orders) || 0`. -/
def sumLoop (rawRows : List SalesRow) (months : List String)
    (predicate : SalesRow → Bool) : JSNum × JSNum :=
  rawRows.foldl
    (fun acc r =>
      if r.month ∈ months ∧ predicate r = true then
        (acc.1.add r.revenue.orZero, acc.2.add r.orders.orZero)
      else acc)
    (JSNum.fin 0, JSNum.fin 0)

/-- `sumForMonths` from `ExecutiveSummary.tsx` lines 417–432: `(0, 0)`
for an empty month list, otherwise the accumulation loop over the raw
rows. -/
def sumForMonths (rawRows : List SalesRow) (months : List String)
    (predicate : SalesRow → Bool) : JSNum × JSNum :=
  if months.isEmpty then (JSNum.fin 0, JSNum.fin 0)
  else sumLoop rawRows months predicate

/-- Component-wise merge of two `(revenue, orders)` buckets, the
"adding the per-period results together" of the spec (the shape of the
per-month `+=` accumulation in the `trendSeries` loop of
`usePlatformMatrix.ts` lines 229–242). -/
def mergePair (a b : JSNum × JSNum) : JSNum × JSNum :=
  (a.1.add b.1, a.2.add b.2)

/-- Replace `NaN` numeric fields of a row by `0` (the effect the spec
ascribes to aggregation-time sanitisation). -/
def sanitizeNaN (r : SalesRow) : SalesRow :=
  { r with
    revenue := if r.revenue = JSNum.nan then JSNum.fin 0 else r.revenue,
    orders := if r.orders = JSNum.nan then JSNum.fin 0 else r.orders }

/-- The cast applied per field in `usePlatformMatrix.ts` lines 87–94:
`Number(r.revenue ?? 0)` — `null` becomes `0`, every number (including
`NaN` and the infinities) passes through. -/
def castedField (x : Option JSNum) : JSNum := x.getD (JSNum.fin 0)

/-!
## Breakdown rows and the result ranker (`ExecutiveSummary.tsx`)
-/

/-- `BreakdownRow` from `ExecutiveSummary.tsx` lines 40–47. -/
structure BreakdownRow where
  key : String
  current : JSNum
  share : Option JSNum
  previous : Option JSNum
  mom : Option JSNum
  yoy : Option JSNum
  deriving DecidableEq, Repr

/-- The share-assignment tail of `breakdownRows`
(`ExecutiveSummary.tsx` lines 503–511): compute `totalCurrent` by a
`reduce`, null out every share when `totalCurrent <= 0`, otherwise set
`share = current / totalCurrent`. -/
def applyShares (rows : List BreakdownRow) : List BreakdownRow :=
  let totalCurrent := rows.foldl (fun sum r => sum.add r.current) (JSNum.fin 0)
  if totalCurrent.le (JSNum.fin 0) then
    rows.map (fun r => { r with share := none })
  else
    rows.map (fun r => { r with share := some (r.current.div totalCurrent) })

/-- The sortable numeric columns (`SortKey`, `ExecutiveSummary.tsx`
line 49). -/
inductive SortKey : Type
  | current
  | share
  | previous
  | mom
  deriving DecidableEq, Repr

/-- The field access `a[sortKey]` (only `current` is non-nullable). -/
def getSortKey : SortKey → BreakdownRow → Option JSNum
  | SortKey.current, r => some r.current
  | SortKey.share, r => r.share
  | SortKey.previous, r => r.previous
  | SortKey.mom, r => r.mom

/-- JS `===` on numbers: equality, except that `NaN === NaN` is
false. -/
def jsEq : JSNum → JSNum → Bool
  | JSNum.nan, _ => false
  | _, JSNum.nan => false
  | a, b => decide (a = b)

/-- The comparator of `sortedBreakdownRows` (`ExecutiveSummary.tsx`
lines 580–588), with `dirFactor = 1` for ascending and `-1` for
descending: a `null` value sorts after anything in both directions,
`===`-equal values tie, otherwise `va > vb ? dirFactor : -dirFactor`. -/
def rowCmp (key : SortKey) (dirFactor : Int) (a b : BreakdownRow) : Int :=
  match getSortKey key a, getSortKey key b with
  | none, none => 0
  | none, some _ => 1
  | some _, none => -1
  | some va, some vb =>
      if jsEq va vb then 0
      else if va.gt vb then dirFactor else -dirFactor

/-- `sortedBreakdownRows` (`ExecutiveSummary.tsx` lines 576–591): sort
a copy of the rows with the comparator. -/
def sortedBreakdownRows (rows : List BreakdownRow) (key : SortKey)
    (dirFactor : Int) : List BreakdownRow :=
  jsSort (rowCmp key dirFactor) rows

/-!
## Platform matrix (`usePlatformMatrix.ts`)

The JS `Map`s are modelled as association lists in insertion order
(`Map.prototype.set` updates an existing key in place and appends a
new one, and iteration follows insertion order); `localeCompare` on
store names is modelled by code-unit string comparison.
-/

/-- A raw row of `usePlatformMatrix.ts` (the `casted` shape, lines
87–94). -/
structure MatrixRawRow where
  month : String
  region : String
  store_name : String
  platform : String
  revenue : JSNum
  orders : JSNum
  deriving DecidableEq, Repr

/-- `MatrixRow` from `usePlatformMatrix.ts` lines 19–31. -/
structure MatrixRow where
  store_name : String
  region : String
  revenueCurrent : JSNum
  revenuePrev : Option JSNum
  revenueMom : Option JSNum
  ordersCurrent : JSNum
  ordersPrev : Option JSNum
  ordersMom : Option JSNum
  aovCurrent : JSNum
  aovPrev : Option JSNum
  aovMom : Option JSNum
  deriving DecidableEq, Repr

/-- `matchPlatform` (lines 129–130): `'ALL'` matches everything. -/
def matchPlatform (platformFilter platform : String) : Bool :=
  platformFilter == "ALL" || platform == platformFilter

/-- The fresh `MatrixRow` created inside `ensureRow` (lines 151–171). -/
def freshRow (store region : String) : MatrixRow :=
  { store_name := store, region := region,
    revenueCurrent := JSNum.fin 0, revenuePrev := none, revenueMom := none,
    ordersCurrent := JSNum.fin 0, ordersPrev := none, ordersMom := none,
    aovCurrent := JSNum.fin 0, aovPrev := none, aovMom := none }

/-- `ensureRow` followed by an in-place mutation of the returned row:
update the entry keyed by `(region, store)` (the
`` `${region}::${store}` `` Map key) if present, else append the
mutated fresh row. -/
def updateRow (store region : String) (upd : MatrixRow → MatrixRow) :
    List MatrixRow → List MatrixRow
  | [] => [upd (freshRow store region)]
  | a :: rest =>
      if a.region = region ∧ a.store_name = store then upd a :: rest
      else a :: updateRow store region upd rest

/-- The current-month accumulation loop (lines 173–177). -/
def applyCurrentRows (rows : List MatrixRawRow) (m : List MatrixRow) :
    List MatrixRow :=
  rows.foldl
    (fun m r =>
      updateRow r.store_name r.region
        (fun row =>
          { row with
            revenueCurrent := row.revenueCurrent.add r.revenue,
            ordersCurrent := row.ordersCurrent.add r.orders }) m)
    m

/-- The previous-month accumulation loop (lines 179–183):
`revenuePrev = (revenuePrev ?? 0) + r.revenue` and likewise for
orders. -/
def applyPrevRows (rows : List MatrixRawRow) (m : List MatrixRow) :
    List MatrixRow :=
  rows.foldl
    (fun m r =>
      updateRow r.store_name r.region
        (fun row =>
          { row with
            revenuePrev :=
              some ((row.revenuePrev.getD (JSNum.fin 0)).add r.revenue),
            ordersPrev :=
              some ((row.ordersPrev.getD (JSNum.fin 0)).add r.orders) }) m)
    m

/-- The AOV / MoM finalisation pass over the map values (lines
185–198). -/
def finalizeRow (row : MatrixRow) : MatrixRow :=
  let aovCurrent :=
    if row.ordersCurrent.gt (JSNum.fin 0) then
      row.revenueCurrent.div row.ordersCurrent
    else JSNum.fin 0
  let aovPrev : Option JSNum :=
    match row.ordersPrev, row.revenuePrev with
    | some o, some rv =>
        if o.gt (JSNum.fin 0) then some (rv.div o) else none
    | _, _ => none
  { row with
    aovCurrent := aovCurrent
    aovPrev := aovPrev
    revenueMom := calcMomMatrix row.revenueCurrent row.revenuePrev
    ordersMom := calcMomMatrix row.ordersCurrent row.ordersPrev
    aovMom := calcMomMatrix aovCurrent aovPrev }

/-- `prev = idx > 0 ? months[idx - 1] : null` for
`idx = months.indexOf(selectedMonth)` (lines 116–125). -/
def prevOfIndex (months : List String) (selectedMonth : String) :
    Option String :=
  if 0 < months.indexOf selectedMonth then
    months[months.indexOf selectedMonth - 1]?
  else none

/-- `currentRows` (lines 133–138): region, selected month and platform
filter. -/
def currentMatrixRows (rawRows : List MatrixRawRow)
    (selectedRegion selectedMonth platformFilter : String) :
    List MatrixRawRow :=
  rawRows.filter (fun r =>
    r.region == selectedRegion && r.month == selectedMonth &&
      matchPlatform platformFilter r.platform)

/-- `prevRows` (lines 140–147): like `currentRows` for the previous
month, or `[]` when there is none. -/
def prevMatrixRows (months : List String) (rawRows : List MatrixRawRow)
    (selectedRegion selectedMonth platformFilter : String) :
    List MatrixRawRow :=
  match prevOfIndex months selectedMonth with
  | some p => rawRows.filter (fun r =>
      r.region == selectedRegion && r.month == p &&
        matchPlatform platformFilter r.platform)
  | none => []

/-- The table computation of the second `useEffect` of
`usePlatformMatrix.ts` (lines 107–203): bail out to `[]` without a
selected month, months, or a found index; otherwise aggregate the
filtered current/previous rows per store, finalise, and sort by store
name. -/
def tableRows (months : List String) (rawRows : List MatrixRawRow)
    (selectedRegion selectedMonth platformFilter : String) :
    List MatrixRow :=
  if selectedMonth = "" ∨ months.isEmpty then []
  else if selectedMonth ∉ months then []
  else
    jsSort (fun a b => strCmp a.store_name b.store_name)
      ((applyPrevRows
          (prevMatrixRows months rawRows selectedRegion selectedMonth
            platformFilter)
          (applyCurrentRows
            (currentMatrixRows rawRows selectedRegion selectedMonth
              platformFilter)
            [])).map finalizeRow)

/-!
## Store platform shares (`usePlatformMatrix.ts` lines 250–314)
-/

/-- `StoreAgg` (lines 258–263). -/
structure StoreAgg where
  region : String
  store_name : String
  total : JSNum
  byPlatform : List (String × JSNum)
  deriving DecidableEq, Repr

/-- `Map.prototype.get(p) ?? 0`. -/
def mapGetD : List (String × JSNum) → String → JSNum
  | [], _ => JSNum.fin 0
  | (q, w) :: rest, p => if q = p then w else mapGetD rest p

/-- `Map.prototype.set`: update an existing key in place, else
append. -/
def mapSet : List (String × JSNum) → String → JSNum → List (String × JSNum)
  | [], p, v => [(p, v)]
  | (q, w) :: rest, p, v =>
      if q = p then (p, v) :: rest else (q, w) :: mapSet rest p v

/-- `ensureAgg` followed by an in-place mutation (lines 267–279). -/
def updateAgg (store region : String) (upd : StoreAgg → StoreAgg) :
    List StoreAgg → List StoreAgg
  | [] =>
      [upd { region := region, store_name := store,
             total := JSNum.fin 0, byPlatform := [] }]
  | a :: rest =>
      if a.region = region ∧ a.store_name = store then upd a :: rest
      else a :: updateAgg store region upd rest

/-- One iteration of the share-aggregation loop (lines 281–289): rows
whose platform is not UBER / Fantuan / Doordash are skipped, otherwise
`total += revenue` and `byPlatform.set(p, (get(p) ?? 0) + revenue)`. -/
def applyShareRow (aggs : List StoreAgg) (r : MatrixRawRow) :
    List StoreAgg :=
  if r.platform = "UBER" ∨ r.platform = "Fantuan" ∨ r.platform = "Doordash"
  then
    updateAgg r.store_name r.region
      (fun a =>
        { a with
          total := a.total.add r.revenue,
          byPlatform := mapSet a.byPlatform r.platform
            ((mapGetD a.byPlatform r.platform).add r.revenue) })
      aggs
  else aggs

/-- `platformOrder` (line 291). -/
def platformOrder : List String := ["UBER", "Fantuan", "Doordash"]

/-- One element of a `shares` list. -/
structure ShareEntry where
  platform : String
  share : JSNum
  deriving DecidableEq, Repr

/-- `StorePlatformShare` (lines 40–47 of `usePlatformMatrix.ts`). -/
structure StorePlatformShare where
  store_name : String
  region : String
  shares : List ShareEntry
  deriving DecidableEq, Repr

/-- The per-store share computation (lines 293–310):
`safeTotal = total > 0 ? total : 0` and
`share = safeTotal > 0 ? value / safeTotal : 0`. -/
def mkShareRow (a : StoreAgg) : StorePlatformShare :=
  let safeTotal := if a.total.gt (JSNum.fin 0) then a.total else JSNum.fin 0
  { store_name := a.store_name, region := a.region,
    shares := platformOrder.map (fun p =>
      let value := mapGetD a.byPlatform p
      { platform := p,
        share :=
          if safeTotal.gt (JSNum.fin 0) then value.div safeTotal
          else JSNum.fin 0 }) }

/-- `storePlatformShare` (lines 250–314): filter the selected
region/month (all platforms), aggregate per store, derive the three
shares, sort by store name; empty filtered input yields `[]`. -/
def storePlatformShare (rawRows : List MatrixRawRow)
    (selectedRegion selectedMonth : String) : List StorePlatformShare :=
  let currentAllPlatformRows := rawRows.filter (fun r =>
    r.region == selectedRegion && r.month == selectedMonth)
  if currentAllPlatformRows.isEmpty then []
  else
    jsSort (fun a b => strCmp a.store_name b.store_name)
      ((currentAllPlatformRows.foldl applyShareRow []).map mkShareRow)

end Dashboard

/-! ## Theorems -/

namespace Dashboard

theorem JSNum.add_zero' (a : JSNum) : JSNum.add a (JSNum.fin 0) = a := by
  cases a <;> simp [JSNum.add]

theorem JSNum.zero_add' (a : JSNum) : JSNum.add (JSNum.fin 0) a = a := by
  cases a <;> simp [JSNum.add]

theorem JSNum.add_comm' (a b : JSNum) : JSNum.add a b = JSNum.add b a := by
  cases a <;> cases b <;> simp [JSNum.add, add_comm]

theorem JSNum.add_assoc' (a b c : JSNum) :
    JSNum.add (JSNum.add a b) c = JSNum.add a (JSNum.add b c) := by
  cases a <;> cases b <;> cases c <;> simp [JSNum.add, add_assoc]

section SortLemmas

variable {α : Type} {cmp : α → α → Int}

theorem mem_insertCmp {x a : α} {l : List α} :
    a ∈ insertCmp cmp x l ↔ a = x ∨ a ∈ l := by
  induction l with
  | nil => simp [insertCmp]
  | cons y ys ih =>
      unfold insertCmp
      split
      · simp
      · simp only [List.mem_cons, ih]
        tauto

theorem insertCmp_perm (x : α) :
    ∀ (l : List α), (insertCmp cmp x l).Perm (x :: l)
  | [] => List.Perm.refl _
  | y :: ys => by
      unfold insertCmp
      split
      · exact List.Perm.refl _
      · exact ((insertCmp_perm x ys).cons y).trans (List.Perm.swap x y ys)

theorem jsSort_loop_perm :
    ∀ (l acc : List α),
      (l.foldl (fun acc x => insertCmp cmp x acc) acc).Perm (acc ++ l)
  | [], acc => by simp
  | x :: t, acc => by
      simp only [List.foldl_cons]
      have h1 := jsSort_loop_perm t (insertCmp cmp x acc)
      have h2 : (insertCmp cmp x acc ++ t).Perm (x :: (acc ++ t)) :=
        List.Perm.append_right t (insertCmp_perm x acc)
      have h3 : (x :: (acc ++ t)).Perm (acc ++ x :: t) := List.perm_middle.symm
      exact h1.trans (h2.trans h3)

theorem jsSort_perm (l : List α) : (jsSort cmp l).Perm l := by
  simpa using @jsSort_loop_perm α cmp l []

theorem mem_jsSort {a : α} {l : List α} : a ∈ jsSort cmp l ↔ a ∈ l :=
  (jsSort_perm l).mem_iff

/-- Inserting into a comparator-sorted list keeps it sorted, provided
the comparator is consistent (`¬ cmp a b < 0 → cmp b a ≤ 0`) and
transitive on the elements involved. -/
theorem insertCmp_pairwise {x : α} :
    ∀ {l : List α},
      (∀ a ∈ x :: l, ∀ b ∈ x :: l, ¬ cmp a b < 0 → cmp b a ≤ 0) →
      (∀ a ∈ x :: l, ∀ b ∈ x :: l, ∀ c ∈ x :: l,
        cmp a b < 0 → cmp b c ≤ 0 → cmp a c ≤ 0) →
      List.Pairwise (fun a b => cmp a b ≤ 0) l →
      List.Pairwise (fun a b => cmp a b ≤ 0) (insertCmp cmp x l)
  | [], _, _, _ => List.pairwise_singleton _ x
  | y :: ys, hcons, htr, hl => by
      unfold insertCmp
      have hy := List.pairwise_cons.1 hl
      split
      · rename_i hxy
        refine List.pairwise_cons.2 ⟨?_, hl⟩
        intro z hz
        rcases List.mem_cons.1 hz with rfl | hz
        · exact le_of_lt hxy
        · exact htr x (by simp) y (by simp) z (by simp [hz]) hxy (hy.1 z hz)
      · rename_i hxy
        have hsub : ∀ a, a ∈ x :: ys → a ∈ x :: y :: ys := by
          intro a ha
          rcases List.mem_cons.1 ha with rfl | ha
          · exact List.mem_cons_self _ _
          · exact List.mem_cons_of_mem _ (List.mem_cons_of_mem _ ha)
        refine List.pairwise_cons.2 ⟨?_, ?_⟩
        · intro z hz
          rcases mem_insertCmp.1 hz with rfl | hz
          · exact hcons z (by simp) y (by simp) hxy
          · exact hy.1 z hz
        · exact insertCmp_pairwise
            (fun a ha b hb => hcons a (hsub a ha) b (hsub b hb))
            (fun a ha b hb c hc =>
              htr a (hsub a ha) b (hsub b hb) c (hsub c hc))
            hy.2

theorem jsSort_loop_pairwise :
    ∀ (l acc : List α) (S : List α),
      (∀ a ∈ l, a ∈ S) → (∀ a ∈ acc, a ∈ S) →
      (∀ a ∈ S, ∀ b ∈ S, ¬ cmp a b < 0 → cmp b a ≤ 0) →
      (∀ a ∈ S, ∀ b ∈ S, ∀ c ∈ S, cmp a b < 0 → cmp b c ≤ 0 → cmp a c ≤ 0) →
      List.Pairwise (fun a b => cmp a b ≤ 0) acc →
      List.Pairwise (fun a b => cmp a b ≤ 0)
        (l.foldl (fun acc x => insertCmp cmp x acc) acc)
  | [], acc, S, _, _, _, _, hacc => hacc
  | x :: t, acc, S, hlS, haccS, hcons, htr, hacc => by
      simp only [List.foldl_cons]
      refine jsSort_loop_pairwise t (insertCmp cmp x acc) S
        (fun a ha => hlS a (by simp [ha])) ?_ hcons htr ?_
      · intro a ha
        rcases mem_insertCmp.1 ha with rfl | ha
        · exact hlS a (by simp)
        · exact haccS a ha
      · refine insertCmp_pairwise ?_ ?_ hacc
        · intro a ha b hb
          refine hcons a ?_ b ?_
          · rcases List.mem_cons.1 ha with rfl | ha
            · exact hlS a (by simp)
            · exact haccS a ha
          · rcases List.mem_cons.1 hb with rfl | hb
            · exact hlS b (by simp)
            · exact haccS b hb
        · intro a ha b hb c hc
          refine htr a ?_ b ?_ c ?_
          · rcases List.mem_cons.1 ha with rfl | ha
            · exact hlS a (by simp)
            · exact haccS a ha
          · rcases List.mem_cons.1 hb with rfl | hb
            · exact hlS b (by simp)
            · exact haccS b hb
          · rcases List.mem_cons.1 hc with rfl | hc
            · exact hlS c (by simp)
            · exact haccS c hc

theorem jsSort_pairwise {l : List α}
    (hcons : ∀ a ∈ l, ∀ b ∈ l, ¬ cmp a b < 0 → cmp b a ≤ 0)
    (htr : ∀ a ∈ l, ∀ b ∈ l, ∀ c ∈ l,
      cmp a b < 0 → cmp b c ≤ 0 → cmp a c ≤ 0) :
    List.Pairwise (fun a b => cmp a b ≤ 0) (jsSort cmp l) :=
  jsSort_loop_pairwise l [] l (fun _ ha => ha) (by simp) hcons htr
    List.Pairwise.nil

/-- A list that is pairwise-related by `Q`, where `Q` pushes the
`p`-false elements to stay `p`-false, splits as the `p`-true part
followed by the `p`-false part. -/
theorem pairwise_filter_append {Q : α → α → Prop} {p : α → Bool} :
    ∀ {l : List α}, List.Pairwise Q l →
      (∀ a ∈ l, ∀ b ∈ l, Q a b → p a = false → p b = false) →
      l = l.filter p ++ l.filter (fun a => !(p a))
  | [], _, _ => rfl
  | x :: t, hl, himp => by
      have ht := List.pairwise_cons.1 hl
      cases hpx : p x with
      | true =>
          have IH := pairwise_filter_append ht.2
            (fun a ha b hb => himp a (by simp [ha]) b (by simp [hb]))
          simp only [List.filter_cons, hpx]
          simpa using IH
      | false =>
          have hall : ∀ b ∈ t, p b = false := fun b hb =>
            himp x (by simp) b (by simp [hb]) (ht.1 b hb) hpx
          have h1 : t.filter p = [] := by
            apply List.filter_eq_nil_iff.2
            intro b hb
            simp [hall b hb]
          have h2 : t.filter (fun a => !(p a)) = t := by
            apply List.filter_eq_self.2
            intro b hb
            simp [hall b hb]
          simp [List.filter_cons, hpx, h1, h2]

/-- Two pairwise-sorted permutations of each other are equal, given
antisymmetry and reflexivity of the order on the elements involved. -/
theorem sorted_perm_eq {R : α → α → Prop} :
    ∀ {l₁ l₂ : List α}, l₁.Perm l₂ →
      List.Pairwise R l₁ → List.Pairwise R l₂ →
      (∀ a ∈ l₁, ∀ b ∈ l₁, R a b → R b a → a = b) →
      (∀ a ∈ l₁, R a a) → l₁ = l₂
  | [], l₂, hp, _, _, _, _ => hp.nil_eq
  | a :: t₁, [], hp, _, _, _, _ => hp.eq_nil
  | a :: t₁, b :: t₂, hp, h₁, h₂, hanti, hrefl => by
      have hmem_ab : b ∈ a :: t₁ := hp.symm.subset (by simp)
      have hmem_ba : a ∈ b :: t₂ := hp.subset (by simp)
      have hab : a = b := by
        rcases List.mem_cons.1 hmem_ab with rfl | hb
        · rfl
        · have hRab : R a b := (List.pairwise_cons.1 h₁).1 b hb
          rcases List.mem_cons.1 hmem_ba with rfl | ha
          · rfl
          · have hRba : R b a := (List.pairwise_cons.1 h₂).1 a ha
            exact hanti a (by simp) b (by simp [hb]) hRab hRba
      subst hab
      have htp : t₁.Perm t₂ := hp.cons_inv
      have := sorted_perm_eq htp (List.pairwise_cons.1 h₁).2
        (List.pairwise_cons.1 h₂).2
        (fun x hx y hy => hanti x (by simp [hx]) y (by simp [hy]))
        (fun x hx => hrefl x (by simp [hx]))
      rw [this]

end SortLemmas

section DedupLemmas

variable {α : Type} [DecidableEq α]

theorem setDedup_loop_mem {x : α} :
    ∀ (l acc : List α),
      (x ∈ l.foldl (fun acc y => if y ∈ acc then acc else acc ++ [y]) acc ↔
        x ∈ acc ∨ x ∈ l)
  | [], acc => by simp
  | y :: t, acc => by
      simp only [List.foldl_cons, List.mem_cons]
      by_cases hy : y ∈ acc
      · rw [if_pos hy, setDedup_loop_mem t acc]
        constructor
        · tauto
        · rintro (h | rfl | h)
          · exact Or.inl h
          · exact Or.inl hy
          · exact Or.inr h
      · rw [if_neg hy, setDedup_loop_mem t (acc ++ [y])]
        simp only [List.mem_append, List.mem_singleton]
        tauto

theorem setDedup_mem {x : α} {l : List α} : x ∈ setDedup l ↔ x ∈ l := by
  unfold setDedup
  rw [setDedup_loop_mem]
  simp

theorem setDedup_loop_nodup :
    ∀ (l acc : List α), acc.Nodup →
      (l.foldl (fun acc y => if y ∈ acc then acc else acc ++ [y]) acc).Nodup
  | [], _, h => h
  | y :: t, acc, h => by
      simp only [List.foldl_cons]
      by_cases hy : y ∈ acc
      · rw [if_pos hy]
        exact setDedup_loop_nodup t acc h
      · rw [if_neg hy]
        refine setDedup_loop_nodup t (acc ++ [y]) ?_
        simp [List.nodup_append, h, hy]

theorem setDedup_nodup (l : List α) : (setDedup l).Nodup :=
  setDedup_loop_nodup l [] List.nodup_nil

theorem nodup_indexOf_get {l : List α} (h : l.Nodup) (i : ℕ)
    (hi : i < l.length) : l.indexOf (l.get ⟨i, hi⟩) = i := by
  have hmem : l.get ⟨i, hi⟩ ∈ l := l.get_mem i hi
  have h1 : l.indexOf (l.get ⟨i, hi⟩) < l.length :=
    List.indexOf_lt_length.2 hmem
  have h2 : l.get ⟨l.indexOf (l.get ⟨i, hi⟩), h1⟩ = l.get ⟨i, hi⟩ :=
    List.indexOf_get h1
  have h3 := (List.Nodup.get_inj_iff h).1 h2
  exact congrArg Fin.val h3

end DedupLemmas

theorem strCmp_lt_iff {a b : String} : strCmp a b < 0 ↔ a < b := by
  by_cases h1 : a < b
  · norm_num [strCmp, h1]
  · by_cases h2 : b < a <;> norm_num [strCmp, h1, h2]

theorem strCmp_nonpos_iff {a b : String} : strCmp a b ≤ 0 ↔ ¬ b < a := by
  by_cases h1 : a < b
  · norm_num [strCmp, h1, h1.asymm]
  · by_cases h2 : b < a <;> norm_num [strCmp, h1, h2]

/-- C3: the period index is the sorted, de-duplicated list of the
distinct period keys, and the previous / year-ago resolutions return
the list element at `index(target) + offset` (offset −1 resp. −12)
when that index is nonnegative, `null` when it is out of bounds or the
target month is not in the list. -/
theorem C3_period_resolution :
    (∀ months : List String,
        (periodIndex months).Sorted (· ≤ ·) ∧
        (periodIndex months).Nodup ∧
        (∀ m : String, m ∈ periodIndex months ↔ m ∈ months)) ∧
    (∀ (l : List String) (t : String), t ∉ l →
        prevMonthSelection l t = none ∧ yoyMonthSelection l t = none) ∧
    (∀ (l : List String) (t : String) (i : ℕ) (hi : i < l.length),
        l.Nodup → t = l.get ⟨i, hi⟩ →
        (prevMonthSelection l t = if 1 ≤ i then l[i - 1]? else none) ∧
        (yoyMonthSelection l t = if 12 ≤ i then l[i - 12]? else none)) := by
  refine ⟨?_, ?_, ?_⟩
  · intro months
    refine ⟨?_, ?_, ?_⟩
    · have hcons : ∀ a ∈ setDedup months, ∀ b ∈ setDedup months,
          ¬ strCmp a b < 0 → strCmp b a ≤ 0 := by
        intro a _ b _ h
        rw [strCmp_lt_iff] at h
        exact strCmp_nonpos_iff.2 h
      have htr : ∀ a ∈ setDedup months, ∀ b ∈ setDedup months,
          ∀ c ∈ setDedup months,
          strCmp a b < 0 → strCmp b c ≤ 0 → strCmp a c ≤ 0 := by
        intro a _ b _ c _ h1 h2
        rw [strCmp_lt_iff] at h1
        rw [strCmp_nonpos_iff] at h2
        exact strCmp_nonpos_iff.2 (fun hca => h2 (lt_trans hca h1))
      exact (jsSort_pairwise hcons htr).imp
        (fun h => not_lt.1 (strCmp_nonpos_iff.1 h))
    · exact ((jsSort_perm (setDedup months)).nodup_iff).2
        (setDedup_nodup months)
    · intro m
      exact (@mem_jsSort String strCmp m (setDedup months)).trans setDedup_mem
  · intro l t ht
    have h : jsIndexOf l t = -1 := by simp [jsIndexOf, ht]
    constructor
    · simp [prevMonthSelection, h]
    · simp [yoyMonthSelection, h]
  · intro l t i hi hnd hget
    have hmem : t ∈ l := hget ▸ l.get_mem i hi
    have hidx : jsIndexOf l t = (i : ℤ) := by
      unfold jsIndexOf
      rw [if_pos hmem, hget]
      exact_mod_cast nodup_indexOf_get hnd i hi
    constructor
    · unfold prevMonthSelection
      rw [hidx]
      by_cases h1 : 1 ≤ i
      · rw [if_neg (by exact_mod_cast (by omega : ¬ (i : ℤ) ≤ 0)), if_pos h1]
        congr 1
        omega
      · rw [if_pos (by exact_mod_cast (by omega : (i : ℤ) ≤ 0)), if_neg h1]
    · unfold yoyMonthSelection
      rw [hidx]
      by_cases h1 : 12 ≤ i
      · rw [if_neg (by exact_mod_cast (by omega : ¬ (i : ℤ) < 12)), if_pos h1]
        congr 1
        omega
      · rw [if_pos (by exact_mod_cast (by omega : (i : ℤ) < 12)), if_neg h1]

/-- C3 witness: on the (deduplicated, sorted) index of
`["2024-01", …, "2025-02"]`, the month `2025-02` at position 13
resolves its previous month to `2025-01` and its year-ago month to
`2024-02`; a month not in the list resolves both to `null`. -/
theorem C3_period_resolution_witness :
    prevMonthSelection
        ["2024-01", "2024-02", "2024-03", "2024-04", "2024-05", "2024-06",
         "2024-07", "2024-08", "2024-09", "2024-10", "2024-11", "2024-12",
         "2025-01", "2025-02"] "2025-02" = some "2025-01" ∧
    yoyMonthSelection
        ["2024-01", "2024-02", "2024-03", "2024-04", "2024-05", "2024-06",
         "2024-07", "2024-08", "2024-09", "2024-10", "2024-11", "2024-12",
         "2025-01", "2025-02"] "2025-02" = some "2024-02" ∧
    prevMonthSelection ["2024-01"] "2099-01" = none := by
  have h13 : (13 : ℕ) <
      (["2024-01", "2024-02", "2024-03", "2024-04", "2024-05", "2024-06",
        "2024-07", "2024-08", "2024-09", "2024-10", "2024-11", "2024-12",
        "2025-01", "2025-02"] : List String).length := by decide
  obtain ⟨h1, h2⟩ := C3_period_resolution.2.2
    ["2024-01", "2024-02", "2024-03", "2024-04", "2024-05", "2024-06",
     "2024-07", "2024-08", "2024-09", "2024-10", "2024-11", "2024-12",
     "2025-01", "2025-02"] "2025-02" 13 h13 (by decide) (by rfl)
  have h3 := C3_period_resolution.2.1 ["2024-01"] "2099-01" (by decide)
  refine ⟨?_, ?_, h3.1⟩
  · rw [h1]; decide
  · rw [h2]; decide

section AggregationLemmas

theorem mergePair_zero_left (a : JSNum × JSNum) :
    mergePair (JSNum.fin 0, JSNum.fin 0) a = a := by
  cases a
  simp [mergePair, JSNum.zero_add']

theorem mergePair_zero_right (a : JSNum × JSNum) :
    mergePair a (JSNum.fin 0, JSNum.fin 0) = a := by
  cases a
  simp [mergePair, JSNum.add_zero']

theorem mergePair_comm (a b : JSNum × JSNum) :
    mergePair a b = mergePair b a := by
  simp [mergePair, JSNum.add_comm']

theorem mergePair_assoc (a b c : JSNum × JSNum) :
    mergePair (mergePair a b) c = mergePair a (mergePair b c) := by
  simp [mergePair, JSNum.add_assoc']

/-- The row contribution of a single raw row to `sumLoop`. -/
theorem sumLoop_foldl_shift (ms : List String) (pred : SalesRow → Bool) :
    ∀ (rows : List SalesRow) (a : JSNum × JSNum),
      rows.foldl
        (fun acc r =>
          if r.month ∈ ms ∧ pred r = true then
            (acc.1.add r.revenue.orZero, acc.2.add r.orders.orZero)
          else acc) a
        = mergePair a (sumLoop rows ms pred)
  | [], a => by
      simp [sumLoop, mergePair_zero_right]
  | r :: t, a => by
      simp only [List.foldl_cons, sumLoop]
      by_cases hc : r.month ∈ ms ∧ pred r = true
      · rw [if_pos hc, if_pos hc]
        rw [sumLoop_foldl_shift ms pred t
          (a.1.add r.revenue.orZero, a.2.add r.orders.orZero)]
        rw [sumLoop_foldl_shift ms pred t
          ((JSNum.fin 0).add r.revenue.orZero, (JSNum.fin 0).add r.orders.orZero)]
        have h1 : ((JSNum.fin 0).add r.revenue.orZero,
            (JSNum.fin 0).add r.orders.orZero)
            = mergePair (JSNum.fin 0, JSNum.fin 0)
                (r.revenue.orZero, r.orders.orZero) := rfl
        have h2 : (a.1.add r.revenue.orZero, a.2.add r.orders.orZero)
            = mergePair a (r.revenue.orZero, r.orders.orZero) := rfl
        rw [h1, h2, mergePair_zero_left, mergePair_assoc]
      · rw [if_neg hc, if_neg hc]
        rw [sumLoop_foldl_shift ms pred t a]
        rfl

theorem sumLoop_cons (r : SalesRow) (rows : List SalesRow)
    (ms : List String) (pred : SalesRow → Bool) :
    sumLoop (r :: rows) ms pred =
      mergePair
        (if r.month ∈ ms ∧ pred r = true then
          (r.revenue.orZero, r.orders.orZero)
        else (JSNum.fin 0, JSNum.fin 0))
        (sumLoop rows ms pred) := by
  show (r :: rows).foldl _ _ = _
  rw [List.foldl_cons, sumLoop_foldl_shift]
  by_cases hc : r.month ∈ ms ∧ pred r = true
  · rw [if_pos hc, if_pos hc]
    congr 1
    simp [JSNum.zero_add']
  · rw [if_neg hc, if_neg hc]

theorem sumLoop_months_nil (rows : List SalesRow) (pred : SalesRow → Bool) :
    sumLoop rows [] pred = (JSNum.fin 0, JSNum.fin 0) := by
  induction rows with
  | nil => rfl
  | cons r t ih =>
      rw [sumLoop_cons, if_neg (by simp), ih, mergePair_zero_left]

theorem sumLoop_partition {m : String} {ms : List String} (hm : m ∉ ms)
    (pred : SalesRow → Bool) :
    ∀ rows : List SalesRow,
      sumLoop rows (m :: ms) pred =
        mergePair (sumLoop rows [m] pred) (sumLoop rows ms pred)
  | [] => by
      show (JSNum.fin 0, JSNum.fin 0)
        = mergePair (JSNum.fin 0, JSNum.fin 0) (JSNum.fin 0, JSNum.fin 0)
      rw [mergePair_zero_left]
  | r :: t => by
      rw [sumLoop_cons r t (m :: ms), sumLoop_cons r t [m], sumLoop_cons r t ms,
        sumLoop_partition hm pred t]
      by_cases hp : pred r = true
      · by_cases h1 : r.month = m
        · have h2 : r.month ∉ ms := h1 ▸ hm
          rw [if_pos ⟨by simp [h1], hp⟩, if_pos ⟨by simp [h1], hp⟩,
            if_neg (by simp [h2]), mergePair_zero_left, ← mergePair_assoc]
        · by_cases h2 : r.month ∈ ms
          · rw [if_pos ⟨by simp [h2], hp⟩, if_neg (by simp [h1]),
              if_pos ⟨h2, hp⟩, mergePair_zero_left]
            rw [← mergePair_assoc,
              mergePair_comm _ (sumLoop t [m] pred), mergePair_assoc]
          · rw [if_neg (by simp [h1, h2]), if_neg (by simp [h1]),
              if_neg (by simp [h2]), mergePair_zero_left,
              mergePair_zero_left, mergePair_zero_left]
      · rw [if_neg (by simp [hp]), if_neg (by simp [hp]),
          if_neg (by simp [hp]), mergePair_zero_left, mergePair_zero_left,
          mergePair_zero_left]

theorem mergePair_foldl_shift :
    ∀ (l : List (JSNum × JSNum)) (a : JSNum × JSNum),
      l.foldl mergePair a
        = mergePair a (l.foldl mergePair (JSNum.fin 0, JSNum.fin 0))
  | [], a => by simp [mergePair_zero_right]
  | x :: t, a => by
      simp only [List.foldl_cons]
      rw [mergePair_foldl_shift t (mergePair a x),
        mergePair_foldl_shift t (mergePair (JSNum.fin 0, JSNum.fin 0) x),
        mergePair_zero_left, mergePair_assoc]

end AggregationLemmas

/-- C4: aggregating over a whole (duplicate-free) period set in one
pass gives exactly the same `(revenue, orders)` sums as aggregating
each period individually and merging the per-period results. -/
theorem C4_aggregate_partition (rows : List SalesRow) (ms : List String)
    (pred : SalesRow → Bool) (_hrows : rows ≠ []) (hms : ms.Nodup) :
    sumForMonths rows ms pred =
      (ms.map (fun m => sumForMonths rows [m] pred)).foldl mergePair
        (JSNum.fin 0, JSNum.fin 0) := by
  induction ms with
  | nil => rfl
  | cons m t ih =>
      have hm : m ∉ t := (List.nodup_cons.1 hms).1
      have ht : t.Nodup := (List.nodup_cons.1 hms).2
      have hL : sumForMonths rows (m :: t) pred
          = mergePair (sumLoop rows [m] pred) (sumLoop rows t pred) := by
        show sumLoop rows (m :: t) pred = _
        exact sumLoop_partition hm pred rows
      have hR : ((m :: t).map (fun m => sumForMonths rows [m] pred)).foldl
            mergePair (JSNum.fin 0, JSNum.fin 0)
          = mergePair (sumLoop rows [m] pred)
              ((t.map (fun m => sumForMonths rows [m] pred)).foldl mergePair
                (JSNum.fin 0, JSNum.fin 0)) := by
        simp only [List.map_cons, List.foldl_cons]
        rw [mergePair_foldl_shift, mergePair_zero_left]
        rfl
      rw [hL, hR]
      congr 1
      rw [← ih ht]
      cases t with
      | nil => exact sumLoop_months_nil rows pred
      | cons u v => rfl

/-- C4 witness: on two concrete rows in two months, the pooled
aggregation equals the merged per-month aggregations, both being
`(300, 30)`. -/
theorem C4_aggregate_partition_witness :
    sumForMonths
        [⟨"2025-01", "BC", "UBER", JSNum.fin 100, JSNum.fin 10⟩,
         ⟨"2025-02", "BC", "UBER", JSNum.fin 200, JSNum.fin 20⟩]
        ["2025-01", "2025-02"] (fun _ => true) =
      ((["2025-01", "2025-02"] : List String).map
          (fun m => sumForMonths
            [⟨"2025-01", "BC", "UBER", JSNum.fin 100, JSNum.fin 10⟩,
             ⟨"2025-02", "BC", "UBER", JSNum.fin 200, JSNum.fin 20⟩]
            [m] (fun _ => true))).foldl mergePair
        (JSNum.fin 0, JSNum.fin 0) ∧
    sumForMonths
        [⟨"2025-01", "BC", "UBER", JSNum.fin 100, JSNum.fin 10⟩,
         ⟨"2025-02", "BC", "UBER", JSNum.fin 200, JSNum.fin 20⟩]
        ["2025-01", "2025-02"] (fun _ => true)
      = (JSNum.fin 300, JSNum.fin 30) := by
  refine ⟨C4_aggregate_partition _ _ _ (by simp) (by decide), ?_⟩
  norm_num [sumForMonths, sumLoop, JSNum.orZero, JSNum.truthy, JSNum.add]

/-- C7 counterexample: an `Infinity` revenue value is *not* sanitised
to 0 by `Number(x) || 0` (only falsy values — `NaN` and `0` — are), so
the sum over a row set containing it is `Infinity`, not the sum over
the well-formed rows alone (which is `0`). -/
theorem C7_counterexample :
    sumForMonths [⟨"2025-01", "BC", "UBER", JSNum.inf, JSNum.fin 0⟩]
        ["2025-01"] (fun _ => true) = (JSNum.inf, JSNum.fin 0) ∧
    sumForMonths ([] : List SalesRow) ["2025-01"] (fun _ => true)
      = (JSNum.fin 0, JSNum.fin 0) ∧
    JSNum.inf ≠ JSNum.fin 0 := by
  refine ⟨?_, rfl, by simp⟩
  norm_num [sumForMonths, sumLoop, JSNum.orZero, JSNum.truthy, JSNum.add]

/-- C7 (amended): aggregation-time sanitisation `Number(x) || 0` maps
`NaN` fields to 0 — so sums are unchanged when every `NaN` field is
replaced by 0 beforehand (for predicates insensitive to the numeric
fields) — but infinite values pass through unsanitised, and the
`usePlatformMatrix` cast `Number(x ?? 0)` only coalesces `null`,
letting `NaN` itself through to the downstream sums. -/
theorem C7_sanitization_amended :
    (∀ (rows : List SalesRow) (ms : List String) (pred : SalesRow → Bool),
        (∀ r, pred (sanitizeNaN r) = pred r) →
        sumForMonths rows ms pred
          = sumForMonths (rows.map sanitizeNaN) ms pred) ∧
    castedField (some JSNum.nan) = JSNum.nan ∧
    castedField none = JSNum.fin 0 := by
  refine ⟨?_, rfl, rfl⟩
  intro rows ms pred hp
  unfold sumForMonths
  by_cases hms : ms.isEmpty
  · rw [if_pos hms, if_pos hms]
  · rw [if_neg hms, if_neg hms]
    clear hms
    induction rows with
    | nil => rfl
    | cons r t ih =>
        rw [List.map_cons, sumLoop_cons, sumLoop_cons, ih]
        congr 1
        have hmon : (sanitizeNaN r).month = r.month := rfl
        have horz : (sanitizeNaN r).revenue.orZero = r.revenue.orZero := by
          show (if r.revenue = JSNum.nan then JSNum.fin 0
            else r.revenue).orZero = _
          cases hr : r.revenue <;> simp [JSNum.orZero, JSNum.truthy]
        have horo : (sanitizeNaN r).orders.orZero = r.orders.orZero := by
          show (if r.orders = JSNum.nan then JSNum.fin 0
            else r.orders).orZero = _
          cases hr : r.orders <;> simp [JSNum.orZero, JSNum.truthy]
        rw [hmon, hp r, horz, horo]

/-- C7 witness: a `NaN` revenue row aggregates identically to the same
row with the `NaN` replaced by 0, and the sum is just the clean rows'
sum. -/
theorem C7_sanitization_amended_witness :
    sumForMonths
        [⟨"2025-01", "BC", "UBER", JSNum.nan, JSNum.fin 5⟩]
        ["2025-01"] (fun _ => true)
      = sumForMonths
          ([⟨"2025-01", "BC", "UBER", JSNum.nan, JSNum.fin 5⟩].map
            sanitizeNaN)
          ["2025-01"] (fun _ => true) ∧
    sumForMonths
        [⟨"2025-01", "BC", "UBER", JSNum.nan, JSNum.fin 5⟩]
        ["2025-01"] (fun _ => true) = (JSNum.fin 0, JSNum.fin 5) := by
  refine ⟨C7_sanitization_amended.1 _ _ _ (fun _ => rfl), ?_⟩
  norm_num [sumForMonths, sumLoop, JSNum.orZero, JSNum.truthy, JSNum.add]

/-- C1 counterexample: the `calcMom` of `useDashboardData.ts` does not
return `null` when the current value is `NaN` — it returns `NaN`. -/
theorem C1_counterexample :
    calcMomDash (some JSNum.nan) (some (JSNum.fin 1)) = some JSNum.nan ∧
    calcMomDash (some JSNum.nan) (some (JSNum.fin 1)) ≠ none := by
  refine ⟨rfl, ?_⟩
  simp [calcMomDash, jsTruthyOpt, JSNum.truthy]

/-- C1 (amended): both `calcMom` functions return the exact relative
change `(curr - prev) / prev` on finite inputs with `prev ≠ 0`; the
`UberAdsPanel` version returns `null` whenever either argument is
`null`, `NaN` or infinite or `prev = 0`; the `useDashboardData` version
returns `null` exactly when `prev` is `null`, `NaN` or `0` (so a `NaN`
or infinite *current* value, or an infinite `prev`, slips through). -/
theorem C1_calcMom_amended :
    (∀ c p : ℚ, p ≠ 0 →
        calcMomPanel (some (JSNum.fin c)) (some (JSNum.fin p))
          = some (JSNum.fin ((c - p) / p)) ∧
        calcMomDash (some (JSNum.fin c)) (some (JSNum.fin p))
          = some (JSNum.fin ((c - p) / p))) ∧
    (∀ curr prev : Option JSNum,
        (curr = none ∨ prev = none ∨ curr = some JSNum.nan ∨
         prev = some JSNum.nan ∨ curr = some JSNum.inf ∨
         curr = some JSNum.negInf ∨ prev = some JSNum.inf ∨
         prev = some JSNum.negInf ∨ prev = some (JSNum.fin 0)) →
        calcMomPanel curr prev = none) ∧
    (∀ curr prev : Option JSNum,
        calcMomDash curr prev = none ↔
          (prev = none ∨ prev = some JSNum.nan ∨ prev = some (JSNum.fin 0))) := by
  refine ⟨?_, ?_, ?_⟩
  · intro c p hp
    constructor
    · simp [calcMomPanel, JSNum.isFinite, hp, JSNum.sub, JSNum.add, JSNum.neg,
        JSNum.div, sub_eq_add_neg]
    · simp [calcMomDash, jsTruthyOpt, JSNum.truthy, hp, JSNum.sub, JSNum.add,
        JSNum.neg, JSNum.div, sub_eq_add_neg]
  · intro curr prev h
    rcases h with h | h | h | h | h | h | h | h | h
    · subst h; cases prev <;> rfl
    · subst h; cases curr <;> rfl
    · subst h
      cases prev with
      | none => rfl
      | some p => simp [calcMomPanel, JSNum.isFinite]
    · subst h
      cases curr with
      | none => rfl
      | some c => simp [calcMomPanel, JSNum.isFinite]
    · subst h
      cases prev with
      | none => rfl
      | some p => simp [calcMomPanel, JSNum.isFinite]
    · subst h
      cases prev with
      | none => rfl
      | some p => simp [calcMomPanel, JSNum.isFinite]
    · subst h
      cases curr with
      | none => rfl
      | some c => simp [calcMomPanel, JSNum.isFinite]
    · subst h
      cases curr with
      | none => rfl
      | some c => simp [calcMomPanel, JSNum.isFinite]
    · subst h
      cases curr with
      | none => rfl
      | some c => simp [calcMomPanel, JSNum.isFinite]
  · intro curr prev
    cases prev with
    | none => simp [calcMomDash, jsTruthyOpt]
    | some p =>
        cases p with
        | nan => simp [calcMomDash, jsTruthyOpt, JSNum.truthy]
        | inf => simp [calcMomDash, jsTruthyOpt, JSNum.truthy]
        | negInf => simp [calcMomDash, jsTruthyOpt, JSNum.truthy]
        | fin q =>
            by_cases hq : q = 0 <;>
              simp [calcMomDash, jsTruthyOpt, JSNum.truthy, hq]

/-- C1 witness: `calcMom(120, 100) = 0.2` for both versions, and the
panel version maps a `NaN` argument to `null`. -/
theorem C1_calcMom_amended_witness :
    calcMomPanel (some (JSNum.fin 120)) (some (JSNum.fin 100))
      = some (JSNum.fin (1 / 5)) ∧
    calcMomDash (some (JSNum.fin 120)) (some (JSNum.fin 100))
      = some (JSNum.fin (1 / 5)) ∧
    calcMomPanel (some JSNum.nan) (some (JSNum.fin 100)) = none := by
  obtain ⟨h1, h2⟩ := C1_calcMom_amended.1 120 100 (by norm_num)
  refine ⟨?_, ?_, ?_⟩
  · rw [h1]; norm_num
  · rw [h2]; norm_num
  · exact C1_calcMom_amended.2.1 (some JSNum.nan) (some (JSNum.fin 100))
      (Or.inr (Or.inr (Or.inl rfl)))

/-- C8: AOV equals `revenue / orders` for positive order counts and `0`
for zero orders; the derived ad sales value is `null` (never `0` or
`Infinity`) whenever `spend` or `roas` is missing or the product
`spend * roas` is not finite. -/
theorem C8_ratio_sentinels :
    (∀ r q : ℚ, 0 < q → aov (JSNum.fin r) (JSNum.fin q) = JSNum.fin (r / q)) ∧
    (∀ rev : JSNum, aov rev (JSNum.fin 0) = JSNum.fin 0) ∧
    (∀ spend roas : Option JSNum,
        (spend = none ∨ roas = none ∨
         ((spend.getD (JSNum.fin 0)).mul
            (roas.getD (JSNum.fin 0))).isFinite = false) →
        calcSales spend roas = none) := by
  refine ⟨?_, ?_, ?_⟩
  · intro r q hq
    simp [aov, JSNum.gt, JSNum.div, hq, hq.ne', not_lt.2 hq.le]
  · intro rev
    simp [aov, JSNum.gt]
  · intro spend roas h
    rcases h with h | h | h
    · subst h
      cases roas with
      | none => simp [calcSales, JSNum.mul, JSNum.isFinite, JSNum.le]
      | some r =>
          cases r <;>
            simp [calcSales, JSNum.mul, JSNum.isFinite, JSNum.le]
    · subst h
      cases spend with
      | none => simp [calcSales, JSNum.mul, JSNum.isFinite, JSNum.le]
      | some s =>
          cases s <;>
            simp [calcSales, JSNum.mul, JSNum.isFinite, JSNum.le]
    · simp [calcSales, h]

/-- C8 witness: AOV of revenue 120 over 10 orders is 12; AOV with zero
orders is 0; sales with missing spend is `null`. -/
theorem C8_ratio_sentinels_witness :
    aov (JSNum.fin 120) (JSNum.fin 10) = JSNum.fin 12 ∧
    aov (JSNum.fin 120) (JSNum.fin 0) = JSNum.fin 0 ∧
    calcSales none (some (JSNum.fin 2)) = none := by
  refine ⟨?_, ?_, ?_⟩
  · have h := C8_ratio_sentinels.1 120 10 (by norm_num)
    rw [h]; norm_num
  · exact C8_ratio_sentinels.2.1 (JSNum.fin 120)
  · exact C8_ratio_sentinels.2.2 none (some (JSNum.fin 2)) (Or.inl rfl)

/-- C6: `daily_spend` is `spend / daysInMonth` for a non-null spend and
`null` otherwise, where `daysInMonth` is the actual calendar day count
of the period's month — always one of 28, 29, 30, 31, and genuinely
month-dependent (Feb 2025 has 28 days, Feb 2024 has 29, Jan 31,
Apr 30), never a fixed 30. -/
theorem C6_daily_spend :
    (∀ (year : ℤ) (month : ℕ), 1 ≤ month → month ≤ 12 →
        daysInMonth year month = 28 ∨ daysInMonth year month = 29 ∨
        daysInMonth year month = 30 ∨ daysInMonth year month = 31) ∧
    (∀ (year : ℤ) (month : ℕ) (q : ℚ),
        daily_spend (some (JSNum.fin q)) (daysInMonth year month)
          = some (JSNum.fin (q / (daysInMonth year month : ℚ)))) ∧
    (∀ d : ℕ, daily_spend none d = none) ∧
    daysInMonth 2025 2 = 28 ∧ daysInMonth 2024 2 = 29 ∧
    daysInMonth 2025 1 = 31 ∧ daysInMonth 2025 4 = 30 := by
  refine ⟨?_, ?_, ?_, by decide, by decide, by decide, by decide⟩
  · intro year month _ _
    unfold daysInMonth
    split
    · split
      · exact Or.inr (Or.inl rfl)
      · exact Or.inl rfl
    · split
      · exact Or.inr (Or.inr (Or.inl rfl))
      · exact Or.inr (Or.inr (Or.inr rfl))
  · intro year month q
    have hd : (0 : ℚ) < (daysInMonth year month : ℚ) := by
      have : 0 < daysInMonth year month := by
        unfold daysInMonth
        split
        · split <;> norm_num
        · split <;> norm_num
      exact_mod_cast this
    simp [daily_spend, JSNum.div, hd.ne', not_lt.2 hd.le]
  · intro d
    rfl

/-- C6 witness: a spend of 310 in January 2025 yields a daily spend of
10, and a null spend yields a null daily spend. -/
theorem C6_daily_spend_witness :
    daily_spend (some (JSNum.fin 310)) (daysInMonth 2025 1)
      = some (JSNum.fin 10) ∧
    daily_spend none (daysInMonth 2025 1) = none ∧
    (daysInMonth 2025 1 = 28 ∨ daysInMonth 2025 1 = 29 ∨
     daysInMonth 2025 1 = 30 ∨ daysInMonth 2025 1 = 31) := by
  refine ⟨?_, C6_daily_spend.2.2.1 (daysInMonth 2025 1),
    C6_daily_spend.1 2025 1 (by norm_num) (by norm_num)⟩
  have h := C6_daily_spend.2.1 2025 1 310
  rw [h]
  norm_num [daysInMonth, isLeap]

/-- C2 counterexample: in `storePlatformShare`, a store whose total
revenue is 0 gets shares equal to the *number* 0 (the `share` field is
not nullable there), not `null` as the claim requires of every
breakdown/share computation. -/
theorem C2_counterexample :
    storePlatformShare
        [⟨"2025-01", "BC", "Store A", "UBER", JSNum.fin 0, JSNum.fin 0⟩]
        "BC" "2025-01"
      = [{ store_name := "Store A", region := "BC",
           shares := [⟨"UBER", JSNum.fin 0⟩, ⟨"Fantuan", JSNum.fin 0⟩,
                      ⟨"Doordash", JSNum.fin 0⟩] }] := by
  norm_num [storePlatformShare, applyShareRow, updateAgg, mkShareRow,
    platformOrder, mapSet, mapGetD, jsSort, insertCmp, JSNum.add, JSNum.gt]

/-- C2 (amended): in the `ExecutiveSummary` breakdown, every share is
`null` when the total of current values is `<= 0` and equals
`current / total` when the total is a positive (finite) number; in
`storePlatformShare` the degenerate shares are the number `0`, not
`null`, and for a positive total the share is `value / total`. -/
theorem C2_share_amended :
    (∀ rows : List BreakdownRow,
        ((rows.foldl (fun sum r => sum.add r.current) (JSNum.fin 0)).le
            (JSNum.fin 0) = true →
          ∀ r ∈ applyShares rows, r.share = none) ∧
        (∀ t : ℚ,
          rows.foldl (fun sum r => sum.add r.current) (JSNum.fin 0)
            = JSNum.fin t → 0 < t →
          applyShares rows = rows.map (fun r =>
            { r with share := some (r.current.div (JSNum.fin t)) }))) ∧
    (∀ a : StoreAgg, a.total.gt (JSNum.fin 0) = false →
        ∀ s ∈ (mkShareRow a).shares, s.share = JSNum.fin 0) ∧
    (∀ a : StoreAgg, a.total.gt (JSNum.fin 0) = true →
        (mkShareRow a).shares = platformOrder.map (fun p =>
          { platform := p, share := (mapGetD a.byPlatform p).div a.total })) := by
  refine ⟨fun rows => ⟨?_, ?_⟩, ?_, ?_⟩
  · intro h r hr
    unfold applyShares at hr
    rw [if_pos h] at hr
    obtain ⟨r', _, rfl⟩ := List.mem_map.1 hr
    rfl
  · intro t ht hpos
    unfold applyShares
    rw [ht]
    have hle : JSNum.le (JSNum.fin t) (JSNum.fin 0) = false := by
      simp [JSNum.le, hpos.not_le]
    simp [hle]
  · intro a h s hs
    simp only [mkShareRow, h, if_false, Bool.false_eq_true] at hs
    have hg : JSNum.gt (JSNum.fin 0) (JSNum.fin 0) = false := by
      simp [JSNum.gt]
    rw [hg] at hs
    simp only [Bool.false_eq_true, if_false] at hs
    obtain ⟨p, _, rfl⟩ := List.mem_map.1 hs
    rfl
  · intro a h
    simp [mkShareRow, h]

/-- C2 witness: two breakdown rows with current values 30 and 70 get
shares 30/100 and 70/100. -/
theorem C2_share_amended_witness :
    applyShares
        [⟨"UBER", JSNum.fin 30, none, none, none, none⟩,
         ⟨"Fantuan", JSNum.fin 70, none, none, none, none⟩]
      = [⟨"UBER", JSNum.fin 30,
            some ((JSNum.fin 30).div (JSNum.fin 100)), none, none, none⟩,
         ⟨"Fantuan", JSNum.fin 70,
            some ((JSNum.fin 70).div (JSNum.fin 100)), none, none, none⟩] := by
  have h := (C2_share_amended.1
    [⟨"UBER", JSNum.fin 30, none, none, none, none⟩,
     ⟨"Fantuan", JSNum.fin 70, none, none, none, none⟩]).2 100
    (by norm_num [JSNum.add]) (by norm_num)
  rw [h]
  rfl

section ShareLemmas

theorem mapGetD_mapSet_self (l : List (String × JSNum)) (p : String)
    (v : JSNum) : mapGetD (mapSet l p v) p = v := by
  induction l with
  | nil => simp [mapSet, mapGetD]
  | cons e rest ih =>
      obtain ⟨q, w⟩ := e
      by_cases hq : q = p
      · simp [mapSet, hq, mapGetD]
      · simp [mapSet, hq, mapGetD, ih]

theorem mapGetD_mapSet_ne (l : List (String × JSNum)) {p p' : String}
    (v : JSNum) (h : p ≠ p') : mapGetD (mapSet l p v) p' = mapGetD l p' := by
  induction l with
  | nil => simp [mapSet, mapGetD, h]
  | cons e rest ih =>
      obtain ⟨q, w⟩ := e
      by_cases hq : q = p
      · subst hq
        simp [mapSet, mapGetD, h]
      · simp [mapSet, hq, mapGetD, ih]

/-- Every entry of `updateAgg` satisfies `P` when the existing entries
do, `upd` preserves `P`, and the updated fresh aggregate satisfies
`P`. -/
theorem updateAgg_forall {P : StoreAgg → Prop} (store region : String)
    (upd : StoreAgg → StoreAgg) (hupd : ∀ x, P x → P (upd x))
    (hfresh : P (upd { region := region, store_name := store,
                       total := JSNum.fin 0, byPlatform := [] })) :
    ∀ l : List StoreAgg, (∀ a ∈ l, P a) →
      ∀ a ∈ updateAgg store region upd l, P a
  | [], _, a, ha => by
      simp only [updateAgg, List.mem_singleton] at ha
      exact ha ▸ hfresh
  | b :: rest, h, a, ha => by
      unfold updateAgg at ha
      split at ha
      · rcases List.mem_cons.1 ha with rfl | ha
        · exact hupd b (h b (by simp))
        · exact h a (by simp [ha])
      · rcases List.mem_cons.1 ha with rfl | ha
        · exact h a (by simp)
        · exact updateAgg_forall store region upd hupd hfresh rest
            (fun x hx => h x (by simp [hx])) a ha

/-- The well-formedness invariant of the share aggregation: each
aggregate's three platform values are nonnegative rationals and the
running total is their sum. -/
theorem shareAgg_inv :
    ∀ (rows : List MatrixRawRow),
      (∀ r ∈ rows, ∃ q : ℚ, r.revenue = JSNum.fin q ∧ 0 ≤ q) →
      ∀ aggs : List StoreAgg,
        (∀ a ∈ aggs, ∃ tu tf td : ℚ, 0 ≤ tu ∧ 0 ≤ tf ∧ 0 ≤ td ∧
          mapGetD a.byPlatform "UBER" = JSNum.fin tu ∧
          mapGetD a.byPlatform "Fantuan" = JSNum.fin tf ∧
          mapGetD a.byPlatform "Doordash" = JSNum.fin td ∧
          a.total = JSNum.fin (tu + tf + td)) →
        ∀ a ∈ rows.foldl applyShareRow aggs,
          ∃ tu tf td : ℚ, 0 ≤ tu ∧ 0 ≤ tf ∧ 0 ≤ td ∧
            mapGetD a.byPlatform "UBER" = JSNum.fin tu ∧
            mapGetD a.byPlatform "Fantuan" = JSNum.fin tf ∧
            mapGetD a.byPlatform "Doordash" = JSNum.fin td ∧
            a.total = JSNum.fin (tu + tf + td)
  | [], _, aggs, h, a, ha => h a ha
  | r :: t, hrev, aggs, h, a, ha => by
      simp only [List.foldl_cons] at ha
      refine shareAgg_inv t (fun x hx => hrev x (by simp [hx]))
        (applyShareRow aggs r) ?_ a ha
      unfold applyShareRow
      split
      · rename_i hplat
        obtain ⟨q, hq, hq0⟩ := hrev r (by simp)
        refine updateAgg_forall _ _ _ ?_ ?_ aggs h
        · rintro x ⟨tu, tf, td, h1, h2, h3, g1, g2, g3, gt⟩
          rcases hplat with hp | hp | hp <;> rw [hp] at *
          · exact ⟨tu + q, tf, td, by linarith, h2, h3,
              by rw [mapGetD_mapSet_self, g1, hq]; rfl,
              by rw [mapGetD_mapSet_ne _ _ (by decide)]; exact g2,
              by rw [mapGetD_mapSet_ne _ _ (by decide)]; exact g3,
              by rw [gt, hq]; show JSNum.fin _ = _; congr 1; ring⟩
          · exact ⟨tu, tf + q, td, h1, by linarith, h3,
              by rw [mapGetD_mapSet_ne _ _ (by decide)]; exact g1,
              by rw [mapGetD_mapSet_self, g2, hq]; rfl,
              by rw [mapGetD_mapSet_ne _ _ (by decide)]; exact g3,
              by rw [gt, hq]; show JSNum.fin _ = _; congr 1; ring⟩
          · exact ⟨tu, tf, td + q, h1, h2, by linarith,
              by rw [mapGetD_mapSet_ne _ _ (by decide)]; exact g1,
              by rw [mapGetD_mapSet_ne _ _ (by decide)]; exact g2,
              by rw [mapGetD_mapSet_self, g3, hq]; rfl,
              by rw [gt, hq]; show JSNum.fin _ = _; congr 1; ring⟩
        · rcases hplat with hp | hp | hp <;> rw [hp] at *
          · exact ⟨0 + q, 0, 0, by linarith, le_refl 0, le_refl 0,
              by rw [hq]; simp [mapGetD_mapSet_self, mapGetD, JSNum.add],
              by rw [hq]; rw [mapGetD_mapSet_ne _ _ (by decide)]; rfl,
              by rw [hq]; rw [mapGetD_mapSet_ne _ _ (by decide)]; rfl,
              by rw [hq]; show JSNum.fin _ = _; congr 1; ring⟩
          · exact ⟨0, 0 + q, 0, le_refl 0, by linarith, le_refl 0,
              by rw [hq]; rw [mapGetD_mapSet_ne _ _ (by decide)]; rfl,
              by rw [hq]; simp [mapGetD_mapSet_self, mapGetD, JSNum.add],
              by rw [hq]; rw [mapGetD_mapSet_ne _ _ (by decide)]; rfl,
              by rw [hq]; show JSNum.fin _ = _; congr 1; ring⟩
          · exact ⟨0, 0, 0 + q, le_refl 0, le_refl 0, by linarith,
              by rw [hq]; rw [mapGetD_mapSet_ne _ _ (by decide)]; rfl,
              by rw [hq]; rw [mapGetD_mapSet_ne _ _ (by decide)]; rfl,
              by rw [hq]; simp [mapGetD_mapSet_self, mapGetD, JSNum.add],
              by rw [hq]; show JSNum.fin _ = _; congr 1; ring⟩
      · exact h

/-- The share row computed from a well-formed aggregate: the
aggregate's total is a nonnegative rational `T`, the three shares come
in platform order and lie in `[0, 1]`, they sum to exactly 1 whenever
`T` is positive, and they are all 0 whenever `T` is not positive. -/
theorem mkShareRow_spec (a : StoreAgg)
    (h : ∃ tu tf td : ℚ, 0 ≤ tu ∧ 0 ≤ tf ∧ 0 ≤ td ∧
      mapGetD a.byPlatform "UBER" = JSNum.fin tu ∧
      mapGetD a.byPlatform "Fantuan" = JSNum.fin tf ∧
      mapGetD a.byPlatform "Doordash" = JSNum.fin td ∧
      a.total = JSNum.fin (tu + tf + td)) :
    ∃ q₁ q₂ q₃ T : ℚ,
      a.total = JSNum.fin T ∧ 0 ≤ T ∧
      (mkShareRow a).shares
        = [⟨"UBER", JSNum.fin q₁⟩, ⟨"Fantuan", JSNum.fin q₂⟩,
           ⟨"Doordash", JSNum.fin q₃⟩] ∧
      0 ≤ q₁ ∧ q₁ ≤ 1 ∧ 0 ≤ q₂ ∧ q₂ ≤ 1 ∧ 0 ≤ q₃ ∧ q₃ ≤ 1 ∧
      (0 < T → q₁ + q₂ + q₃ = 1) ∧
      (T ≤ 0 → q₁ = 0 ∧ q₂ = 0 ∧ q₃ = 0) := by
  obtain ⟨tu, tf, td, h1, h2, h3, g1, g2, g3, gT⟩ := h
  by_cases hT : 0 < tu + tf + td
  · have hgt2 : (JSNum.fin (tu + tf + td)).gt (JSNum.fin 0) = true := by
      simp [JSNum.gt, hT]
    have hTne : tu + tf + td ≠ 0 := ne_of_gt hT
    refine ⟨tu / (tu + tf + td), tf / (tu + tf + td), td / (tu + tf + td),
      tu + tf + td, gT, hT.le, ?_, ?_, ?_, ?_, ?_, ?_, ?_, ?_, ?_⟩
    · simp [mkShareRow, platformOrder, g1, g2, g3, gT, hgt2, JSNum.div, hTne]
    · exact div_nonneg h1 hT.le
    · rw [div_le_one hT]; linarith
    · exact div_nonneg h2 hT.le
    · rw [div_le_one hT]; linarith
    · exact div_nonneg h3 hT.le
    · rw [div_le_one hT]; linarith
    · intro _
      field_simp
    · intro hle
      exact absurd hT (not_lt.2 hle)
  · have hgt2 : (JSNum.fin (tu + tf + td)).gt (JSNum.fin 0) = false := by
      simp [JSNum.gt, hT]
    refine ⟨0, 0, 0, tu + tf + td, gT, by linarith, ?_, le_refl 0,
      zero_le_one, le_refl 0, zero_le_one, le_refl 0, zero_le_one,
      fun hpos => absurd hpos hT, fun _ => ⟨rfl, rfl, rfl⟩⟩
    have hg0 : JSNum.gt (JSNum.fin 0) (JSNum.fin 0) = false := by
      simp [JSNum.gt]
    simp [mkShareRow, platformOrder, gT, hgt2, hg0]

end ShareLemmas

/-- C10: every entry of `storePlatformShare` (over nonnegative finite
revenues) is `mkShareRow` of a store aggregate whose running total is
the store's total revenue `T` over the three platforms; the entry
lists exactly the three platforms UBER, Fantuan, Doordash in that
order; every share is a rational in `[0, 1]`; and whenever the store's
total `T` is positive, the three shares sum to exactly 1 (while a
nonpositive total gives all-zero shares). -/
theorem C10_store_platform_share
    (rawRows : List MatrixRawRow) (selectedRegion selectedMonth : String)
    (hrev : ∀ r ∈ rawRows, ∃ q : ℚ, r.revenue = JSNum.fin q ∧ 0 ≤ q) :
    ∀ e ∈ storePlatformShare rawRows selectedRegion selectedMonth,
      ∃ a ∈ (rawRows.filter (fun r =>
          r.region == selectedRegion && r.month == selectedMonth)).foldl
          applyShareRow [],
        e = mkShareRow a ∧
        ∃ q₁ q₂ q₃ T : ℚ,
          a.total = JSNum.fin T ∧ 0 ≤ T ∧
          e.shares = [⟨"UBER", JSNum.fin q₁⟩, ⟨"Fantuan", JSNum.fin q₂⟩,
                      ⟨"Doordash", JSNum.fin q₃⟩] ∧
          0 ≤ q₁ ∧ q₁ ≤ 1 ∧ 0 ≤ q₂ ∧ q₂ ≤ 1 ∧ 0 ≤ q₃ ∧ q₃ ≤ 1 ∧
          (0 < T → q₁ + q₂ + q₃ = 1) ∧
          (T ≤ 0 → q₁ = 0 ∧ q₂ = 0 ∧ q₃ = 0) := by
  intro e he
  have he' : e ∈
      (if (rawRows.filter (fun r =>
            r.region == selectedRegion && r.month == selectedMonth)).isEmpty
        then ([] : List StorePlatformShare)
        else jsSort (fun a b => strCmp a.store_name b.store_name)
          (((rawRows.filter (fun r =>
              r.region == selectedRegion && r.month == selectedMonth)).foldl
            applyShareRow []).map mkShareRow)) := he
  clear he
  split at he'
  · simp at he'
  · rename_i hne
    rw [mem_jsSort] at he' 
    obtain ⟨a, ha, rfl⟩ := List.mem_map.1 he'
    refine ⟨a, ha, rfl, ?_⟩
    refine mkShareRow_spec a ?_
    refine shareAgg_inv _ ?_ [] (by simp) a ha
    intro r hr
    exact hrev r (List.mem_filter.1 hr).1

/-- C10 witness: a single UBER row with revenue 100 yields the share
list `[1, 0, 0]` from an aggregate with positive total, in the
required shape. -/
theorem C10_store_platform_share_witness :
    ∃ a ∈ (([⟨"2025-01", "BC", "Store A", "UBER", JSNum.fin 100,
          JSNum.fin 10⟩] : List MatrixRawRow).filter (fun r =>
        r.region == "BC" && r.month == "2025-01")).foldl
        applyShareRow [],
      (⟨"Store A", "BC",
        [⟨"UBER", JSNum.fin 1⟩, ⟨"Fantuan", JSNum.fin 0⟩,
         ⟨"Doordash", JSNum.fin 0⟩]⟩ : StorePlatformShare)
        = mkShareRow a ∧
      ∃ q₁ q₂ q₃ T : ℚ,
        a.total = JSNum.fin T ∧ 0 ≤ T ∧
        (⟨"Store A", "BC",
          [⟨"UBER", JSNum.fin 1⟩, ⟨"Fantuan", JSNum.fin 0⟩,
           ⟨"Doordash", JSNum.fin 0⟩]⟩ : StorePlatformShare).shares
          = [⟨"UBER", JSNum.fin q₁⟩, ⟨"Fantuan", JSNum.fin q₂⟩,
             ⟨"Doordash", JSNum.fin q₃⟩] ∧
        0 ≤ q₁ ∧ q₁ ≤ 1 ∧ 0 ≤ q₂ ∧ q₂ ≤ 1 ∧ 0 ≤ q₃ ∧ q₃ ≤ 1 ∧
        (0 < T → q₁ + q₂ + q₃ = 1) ∧
        (T ≤ 0 → q₁ = 0 ∧ q₂ = 0 ∧ q₃ = 0) := by
  have hmem : (⟨"Store A", "BC",
        [⟨"UBER", JSNum.fin 1⟩, ⟨"Fantuan", JSNum.fin 0⟩,
         ⟨"Doordash", JSNum.fin 0⟩]⟩ : StorePlatformShare)
      ∈ storePlatformShare
        [⟨"2025-01", "BC", "Store A", "UBER", JSNum.fin 100, JSNum.fin 10⟩]
        "BC" "2025-01" := by
    simp [storePlatformShare, applyShareRow, updateAgg, mkShareRow,
      platformOrder, mapSet, mapGetD, jsSort, insertCmp, JSNum.add,
      JSNum.gt, JSNum.div]
  exact C10_store_platform_share
    [⟨"2025-01", "BC", "Store A", "UBER", JSNum.fin 100, JSNum.fin 10⟩]
    "BC" "2025-01"
    (by
      intro r hr
      simp only [List.mem_singleton] at hr
      exact ⟨100, by rw [hr], by norm_num⟩)
    _ hmem

section RankerLemmas

theorem jsEq_fin (qa qb : ℚ) :
    jsEq (JSNum.fin qa) (JSNum.fin qb) = decide (qa = qb) := by
  by_cases h : qa = qb <;> simp [jsEq, h]

theorem gt_fin (qa qb : ℚ) :
    JSNum.gt (JSNum.fin qa) (JSNum.fin qb) = decide (qb < qa) := rfl

theorem rowCmp_none_none {k : SortKey} {d : Int} {a b : BreakdownRow}
    (ha : getSortKey k a = none) (hb : getSortKey k b = none) :
    rowCmp k d a b = 0 := by
  simp [rowCmp, ha, hb]

theorem rowCmp_none_some {k : SortKey} {d : Int} {a b : BreakdownRow}
    {v : JSNum} (ha : getSortKey k a = none)
    (hb : getSortKey k b = some v) : rowCmp k d a b = 1 := by
  simp [rowCmp, ha, hb]

theorem rowCmp_some_none {k : SortKey} {d : Int} {a b : BreakdownRow}
    {v : JSNum} (ha : getSortKey k a = some v)
    (hb : getSortKey k b = none) : rowCmp k d a b = -1 := by
  simp [rowCmp, ha, hb]

theorem rowCmp_fin_fin {k : SortKey} {d : Int} {a b : BreakdownRow}
    {qa qb : ℚ} (ha : getSortKey k a = some (JSNum.fin qa))
    (hb : getSortKey k b = some (JSNum.fin qb)) :
    rowCmp k d a b = if qa = qb then 0 else if qb < qa then d else -d := by
  simp [rowCmp, ha, hb, jsEq_fin, gt_fin]

theorem rowCmp_asc_lt {k : SortKey} {a b : BreakdownRow} {qa qb : ℚ}
    (ha : getSortKey k a = some (JSNum.fin qa))
    (hb : getSortKey k b = some (JSNum.fin qb)) :
    (rowCmp k 1 a b < 0 ↔ qa < qb) := by
  rw [rowCmp_fin_fin ha hb]
  by_cases h1 : qa = qb
  · simp [h1]
  · by_cases h2 : qb < qa
    · simp [h1, h2, h2.asymm]
    · have h3 : qa < qb := lt_of_le_of_ne (not_lt.1 h2) h1
      norm_num [h1, h2, h3]

theorem rowCmp_asc_le {k : SortKey} {a b : BreakdownRow} {qa qb : ℚ}
    (ha : getSortKey k a = some (JSNum.fin qa))
    (hb : getSortKey k b = some (JSNum.fin qb)) :
    (rowCmp k 1 a b ≤ 0 ↔ qa ≤ qb) := by
  rw [rowCmp_fin_fin ha hb]
  by_cases h1 : qa = qb
  · simp [h1]
  · by_cases h2 : qb < qa
    · norm_num [h1, h2, not_le.2 h2]
    · have h3 : qa ≤ qb := not_lt.1 h2
      norm_num [h1, h2, h3]

theorem rowCmp_desc_lt {k : SortKey} {a b : BreakdownRow} {qa qb : ℚ}
    (ha : getSortKey k a = some (JSNum.fin qa))
    (hb : getSortKey k b = some (JSNum.fin qb)) :
    (rowCmp k (-1) a b < 0 ↔ qb < qa) := by
  rw [rowCmp_fin_fin ha hb]
  by_cases h1 : qa = qb
  · simp [h1]
  · by_cases h2 : qb < qa
    · norm_num [h1, h2]
    · have h3 : ¬ qb < qa := h2
      norm_num [h1, h2, h3]

theorem rowCmp_desc_le {k : SortKey} {a b : BreakdownRow} {qa qb : ℚ}
    (ha : getSortKey k a = some (JSNum.fin qa))
    (hb : getSortKey k b = some (JSNum.fin qb)) :
    (rowCmp k (-1) a b ≤ 0 ↔ qb ≤ qa) := by
  rw [rowCmp_fin_fin ha hb]
  by_cases h1 : qa = qb
  · simp [h1, h1.ge]
  · by_cases h2 : qb < qa
    · norm_num [h1, h2, h2.le]
    · have h3 : ¬ qb ≤ qa := fun hle => h1 ((not_lt.1 h2).antisymm hle)
      norm_num [h1, h2, h3]

/-- Consistency and transitivity of the breakdown comparator on rows
whose sort-key values are `null` or finite, in both directions. -/
theorem rowCmp_props (k : SortKey) (rows : List BreakdownRow)
    (hfin : ∀ r ∈ rows, getSortKey k r = none ∨
      ∃ q : ℚ, getSortKey k r = some (JSNum.fin q)) (d : Int)
    (hd : d = 1 ∨ d = -1) :
    (∀ a ∈ rows, ∀ b ∈ rows,
      ¬ rowCmp k d a b < 0 → rowCmp k d b a ≤ 0) ∧
    (∀ a ∈ rows, ∀ b ∈ rows, ∀ c ∈ rows,
      rowCmp k d a b < 0 → rowCmp k d b c ≤ 0 → rowCmp k d a c ≤ 0) := by
  constructor
  · intro a ha b hb h
    rcases hfin a ha with hna | ⟨qa, hqa⟩
    · rcases hfin b hb with hnb | ⟨qb, hqb⟩
      · rw [rowCmp_none_none hnb hna]
      · rw [rowCmp_some_none hqb hna]
        norm_num
    · rcases hfin b hb with hnb | ⟨qb, hqb⟩
      · rw [rowCmp_some_none hqa hnb] at h
        norm_num at h
      · rcases hd with rfl | rfl
        · rw [rowCmp_asc_le hqb hqa]
          rw [← not_lt]
          intro hlt
          exact h ((rowCmp_asc_lt hqa hqb).2 hlt)
        · rw [rowCmp_desc_le hqb hqa]
          rw [← not_lt]
          intro hlt
          exact h ((rowCmp_desc_lt hqa hqb).2 hlt)
  · intro a ha b hb c hc h1 h2
    rcases hfin a ha with hna | ⟨qa, hqa⟩
    · rcases hfin b hb with hnb | ⟨qb, hqb⟩
      · rw [rowCmp_none_none hna hnb] at h1
        norm_num at h1
      · rw [rowCmp_none_some hna hqb] at h1
        norm_num at h1
    · rcases hfin b hb with hnb | ⟨qb, hqb⟩
      · rcases hfin c hc with hnc | ⟨qc, hqc⟩
        · rw [rowCmp_some_none hqa hnc]
          norm_num
        · rw [rowCmp_none_some hnb hqc] at h2
          norm_num at h2
      · rcases hfin c hc with hnc | ⟨qc, hqc⟩
        · rw [rowCmp_some_none hqa hnc]
          norm_num
        · rcases hd with rfl | rfl
          · rw [rowCmp_asc_lt hqa hqb] at h1
            rw [rowCmp_asc_le hqb hqc] at h2
            rw [rowCmp_asc_le hqa hqc]
            linarith
          · rw [rowCmp_desc_lt hqa hqb] at h1
            rw [rowCmp_desc_le hqb hqc] at h2
            rw [rowCmp_desc_le hqa hqc]
            linarith

end RankerLemmas

/-- C5 counterexample: two rows tying on the sort key come out in the
same (stable) order in both directions, so toggling the direction does
not yield the exact reverse of the non-null rows. -/
theorem C5_counterexample :
    sortedBreakdownRows
        [⟨"A", JSNum.fin 1, none, none, none, none⟩,
         ⟨"B", JSNum.fin 1, none, none, none, none⟩] SortKey.current 1
      = [⟨"A", JSNum.fin 1, none, none, none, none⟩,
         ⟨"B", JSNum.fin 1, none, none, none, none⟩] ∧
    sortedBreakdownRows
        [⟨"A", JSNum.fin 1, none, none, none, none⟩,
         ⟨"B", JSNum.fin 1, none, none, none, none⟩] SortKey.current (-1)
      = [⟨"A", JSNum.fin 1, none, none, none, none⟩,
         ⟨"B", JSNum.fin 1, none, none, none, none⟩] ∧
    ([⟨"A", JSNum.fin 1, none, none, none, none⟩,
      ⟨"B", JSNum.fin 1, none, none, none, none⟩] : List BreakdownRow)
      ≠ ([⟨"A", JSNum.fin 1, none, none, none, none⟩,
          ⟨"B", JSNum.fin 1, none, none, none, none⟩] :
          List BreakdownRow).reverse := by
  refine ⟨?_, ?_, by simp⟩ <;>
    simp [sortedBreakdownRows, jsSort, insertCmp, rowCmp, getSortKey, jsEq]

/-- C5 (amended): over rows whose sort-key values are `null` or finite
and whose non-null values are distinct across distinct rows, the
`null`-keyed rows sort after all non-null rows in both directions, and
toggling the direction reverses the non-null rows exactly.  (With tied
values the stable sort instead preserves the input order of the tied
rows in both directions — see the counterexample.) -/
theorem C5_sort_amended (rows : List BreakdownRow) (k : SortKey)
    (hfin : ∀ r ∈ rows, getSortKey k r = none ∨
      ∃ q : ℚ, getSortKey k r = some (JSNum.fin q))
    (hdist : ∀ a ∈ rows, ∀ b ∈ rows, ∀ qa qb : ℚ,
      getSortKey k a = some (JSNum.fin qa) →
      getSortKey k b = some (JSNum.fin qb) → qa = qb → a = b) :
    (∀ d : Int, d = 1 ∨ d = -1 →
      sortedBreakdownRows rows k d
        = (sortedBreakdownRows rows k d).filter
            (fun r => (getSortKey k r).isSome)
          ++ (sortedBreakdownRows rows k d).filter
              (fun r => !((getSortKey k r).isSome))) ∧
    (sortedBreakdownRows rows k 1).filter
        (fun r => (getSortKey k r).isSome)
      = ((sortedBreakdownRows rows k (-1)).filter
          (fun r => (getSortKey k r).isSome)).reverse := by
  have hsort : ∀ d : Int, d = 1 ∨ d = -1 →
      List.Pairwise (fun a b => rowCmp k d a b ≤ 0)
        (sortedBreakdownRows rows k d) := by
    intro d hd
    obtain ⟨hcons, htr⟩ := rowCmp_props k rows hfin d hd
    exact jsSort_pairwise hcons htr
  constructor
  · intro d hd
    refine pairwise_filter_append (hsort d hd) ?_
    intro a _ b _ hab hpa
    have hna : getSortKey k a = none := by
      cases hga : getSortKey k a with
      | none => rfl
      | some v => rw [hga] at hpa; simp at hpa
    cases hgb : getSortKey k b with
    | none => simp [hgb]
    | some v =>
        rw [rowCmp_none_some hna hgb] at hab
        norm_num at hab
  · have hpA : ((sortedBreakdownRows rows k 1).filter
        (fun r => (getSortKey k r).isSome)).Perm
        (rows.filter (fun r => (getSortKey k r).isSome)) :=
      (jsSort_perm rows).filter _
    have hpD : ((sortedBreakdownRows rows k (-1)).filter
        (fun r => (getSortKey k r).isSome)).Perm
        (rows.filter (fun r => (getSortKey k r).isSome)) :=
      (jsSort_perm rows).filter _
    have hperm : ((sortedBreakdownRows rows k 1).filter
        (fun r => (getSortKey k r).isSome)).Perm
        (((sortedBreakdownRows rows k (-1)).filter
          (fun r => (getSortKey k r).isSome)).reverse) :=
      hpA.trans (hpD.symm.trans (List.reverse_perm _).symm)
    have hPA : ((sortedBreakdownRows rows k 1).filter
        (fun r => (getSortKey k r).isSome)).Pairwise
        (fun a b => ∀ qa qb : ℚ, getSortKey k a = some (JSNum.fin qa) →
          getSortKey k b = some (JSNum.fin qb) → qa ≤ qb) := by
      have h2 : ((sortedBreakdownRows rows k 1).filter
          (fun r => (getSortKey k r).isSome)).Pairwise
          (fun a b => rowCmp k 1 a b ≤ 0) :=
        List.Pairwise.sublist (List.filter_sublist _) (hsort 1 (Or.inl rfl))
      refine h2.imp_of_mem ?_
      intro a b _ _ hab qa qb hqa hqb
      exact (rowCmp_asc_le hqa hqb).1 hab
    have hPD : (((sortedBreakdownRows rows k (-1)).filter
        (fun r => (getSortKey k r).isSome)).reverse).Pairwise
        (fun a b => ∀ qa qb : ℚ, getSortKey k a = some (JSNum.fin qa) →
          getSortKey k b = some (JSNum.fin qb) → qa ≤ qb) := by
      have h2 : ((sortedBreakdownRows rows k (-1)).filter
          (fun r => (getSortKey k r).isSome)).Pairwise
          (fun a b => rowCmp k (-1) a b ≤ 0) :=
        List.Pairwise.sublist (List.filter_sublist _)
          (hsort (-1) (Or.inr rfl))
      have h3 : ((sortedBreakdownRows rows k (-1)).filter
          (fun r => (getSortKey k r).isSome)).Pairwise
          (fun a b => ∀ qa qb : ℚ, getSortKey k b = some (JSNum.fin qa) →
            getSortKey k a = some (JSNum.fin qb) → qa ≤ qb) := by
        refine h2.imp_of_mem ?_
        intro a b _ _ hab qb qa hqb hqa
        exact (rowCmp_desc_le hqa hqb).1 hab
      exact List.pairwise_reverse.2 h3
    have hmemA : ∀ x ∈ (sortedBreakdownRows rows k 1).filter
        (fun r => (getSortKey k r).isSome),
        x ∈ rows ∧ (getSortKey k x).isSome = true := by
      intro x hx
      have h := List.mem_filter.1 hx
      exact ⟨(@mem_jsSort BreakdownRow (rowCmp k 1) x rows).1 h.1, by simpa using h.2⟩
    refine sorted_perm_eq hperm hPA hPD ?_ ?_
    · intro a haA b hbA hRab hRba
      obtain ⟨haR, haS⟩ := hmemA a haA
      obtain ⟨hbR, hbS⟩ := hmemA b hbA
      rcases hfin a haR with hna | ⟨qa, hqa⟩
      · rw [hna] at haS
        simp at haS
      · rcases hfin b hbR with hnb | ⟨qb, hqb⟩
        · rw [hnb] at hbS
          simp at hbS
        · exact hdist a haR b hbR qa qb hqa hqb
            ((hRab qa qb hqa hqb).antisymm (hRba qb qa hqb hqa))
    · intro a _ qa qb hqa hqb
      rw [hqa] at hqb
      exact le_of_eq (JSNum.fin.inj (Option.some.inj hqb))

/-- C5 witness: on two rows with distinct current values 2 and 1 (no
nulls), ascending output is the exact reverse of descending output,
and the null/non-null split is trivial. -/
theorem C5_sort_amended_witness :
    ((sortedBreakdownRows
        [⟨"A", JSNum.fin 2, none, none, none, none⟩,
         ⟨"B", JSNum.fin 1, none, none, none, none⟩] SortKey.current 1).filter
        (fun r => (getSortKey SortKey.current r).isSome)
      = ((sortedBreakdownRows
          [⟨"A", JSNum.fin 2, none, none, none, none⟩,
           ⟨"B", JSNum.fin 1, none, none, none, none⟩] SortKey.current
            (-1)).filter
          (fun r => (getSortKey SortKey.current r).isSome)).reverse) ∧
    sortedBreakdownRows
        [⟨"A", JSNum.fin 2, none, none, none, none⟩,
         ⟨"B", JSNum.fin 1, none, none, none, none⟩] SortKey.current 1
      = (sortedBreakdownRows
          [⟨"A", JSNum.fin 2, none, none, none, none⟩,
           ⟨"B", JSNum.fin 1, none, none, none, none⟩] SortKey.current
            1).filter (fun r => (getSortKey SortKey.current r).isSome)
        ++ (sortedBreakdownRows
            [⟨"A", JSNum.fin 2, none, none, none, none⟩,
             ⟨"B", JSNum.fin 1, none, none, none, none⟩] SortKey.current
              1).filter
            (fun r => !((getSortKey SortKey.current r).isSome)) := by
  have h := C5_sort_amended
    [⟨"A", JSNum.fin 2, none, none, none, none⟩,
     ⟨"B", JSNum.fin 1, none, none, none, none⟩] SortKey.current
    (by
      intro r hr
      simp only [List.mem_cons, List.not_mem_nil, or_false] at hr
      rcases hr with rfl | rfl
      · exact Or.inr ⟨2, rfl⟩
      · exact Or.inr ⟨1, rfl⟩)
    (by
      intro a ha b hb qa qb hqa hqb heq
      simp only [List.mem_cons, List.not_mem_nil, or_false] at ha hb
      rcases ha with rfl | rfl <;> rcases hb with rfl | rfl
      · rfl
      · simp only [getSortKey, Option.some.injEq] at hqa hqb
        rw [← JSNum.fin.inj hqa, ← JSNum.fin.inj hqb] at heq
        norm_num at heq
      · simp only [getSortKey, Option.some.injEq] at hqa hqb
        rw [← JSNum.fin.inj hqa, ← JSNum.fin.inj hqb] at heq
        norm_num at heq
      · rfl)
  exact ⟨h.2, h.1 1 (Or.inl rfl)⟩

section MatrixLemmas

theorem updateRow_forall {P : MatrixRow → Prop} (store region : String)
    (upd : MatrixRow → MatrixRow) (hupd : ∀ x, P x → P (upd x))
    (hfresh : P (upd (freshRow store region))) :
    ∀ l : List MatrixRow, (∀ a ∈ l, P a) →
      ∀ a ∈ updateRow store region upd l, P a
  | [], _, a, ha => by
      simp only [updateRow, List.mem_singleton] at ha
      exact ha ▸ hfresh
  | b :: rest, h, a, ha => by
      unfold updateRow at ha
      split at ha
      · rcases List.mem_cons.1 ha with rfl | ha
        · exact hupd b (h b (by simp))
        · exact h a (by simp [ha])
      · rcases List.mem_cons.1 ha with rfl | ha
        · exact h a (by simp)
        · exact updateRow_forall store region upd hupd hfresh rest
            (fun x hx => h x (by simp [hx])) a ha

theorem updateRow_key_present (store region : String)
    (upd : MatrixRow → MatrixRow)
    (hkey : ∀ x, (upd x).store_name = x.store_name ∧
      (upd x).region = x.region) :
    ∀ l : List MatrixRow,
      ∃ e ∈ updateRow store region upd l,
        e.store_name = store ∧ e.region = region
  | [] =>
      ⟨upd (freshRow store region), by simp [updateRow],
        (hkey _).1, (hkey _).2⟩
  | b :: rest => by
      unfold updateRow
      split
      · rename_i hm
        exact ⟨upd b, by simp, (hkey b).1.trans hm.2, (hkey b).2.trans hm.1⟩
      · obtain ⟨e, he, hk1, hk2⟩ :=
          updateRow_key_present store region upd hkey rest
        exact ⟨e, by simp [he], hk1, hk2⟩

theorem updateRow_key_stable (s' r' store region : String)
    (upd : MatrixRow → MatrixRow)
    (hkey : ∀ x, (upd x).store_name = x.store_name ∧
      (upd x).region = x.region) :
    ∀ l : List MatrixRow,
      (∃ e ∈ l, e.store_name = store ∧ e.region = region) →
      ∃ e ∈ updateRow s' r' upd l,
        e.store_name = store ∧ e.region = region
  | [], h => by
      obtain ⟨e, he, _⟩ := h
      exact absurd he (List.not_mem_nil e)
  | b :: rest, h => by
      obtain ⟨e, he, hk⟩ := h
      unfold updateRow
      split
      · rcases List.mem_cons.1 he with rfl | he
        · exact ⟨upd e, by simp, (hkey e).1.trans hk.1,
            (hkey e).2.trans hk.2⟩
        · exact ⟨e, by simp [he], hk⟩
      · rcases List.mem_cons.1 he with rfl | he
        · exact ⟨e, by simp, hk⟩
        · obtain ⟨e', he', hk'⟩ := updateRow_key_stable s' r' store region
            upd hkey rest ⟨e, he, hk⟩
          exact ⟨e', by simp [he'], hk'⟩

theorem applyPrevRows_key_stable (store region : String) :
    ∀ (rows : List MatrixRawRow) (m : List MatrixRow),
      (∃ e ∈ m, e.store_name = store ∧ e.region = region) →
      ∃ e ∈ applyPrevRows rows m, e.store_name = store ∧ e.region = region
  | [], _, h => h
  | r :: t, m, h => by
      have h1 := updateRow_key_stable r.store_name r.region store region
        (fun row =>
          { row with
            revenuePrev :=
              some ((row.revenuePrev.getD (JSNum.fin 0)).add r.revenue),
            ordersPrev :=
              some ((row.ordersPrev.getD (JSNum.fin 0)).add r.orders) })
        (fun x => ⟨rfl, rfl⟩) m h
      exact applyPrevRows_key_stable store region t _ h1

theorem applyPrevRows_key_present (store region : String) :
    ∀ (rows : List MatrixRawRow) (m : List MatrixRow),
      (∃ r ∈ rows, r.store_name = store ∧ r.region = region) →
      ∃ e ∈ applyPrevRows rows m, e.store_name = store ∧ e.region = region
  | [], _, h => by
      obtain ⟨r, hr, _⟩ := h
      exact absurd hr (List.not_mem_nil r)
  | r :: t, m, h => by
      obtain ⟨r0, hr0, hk0⟩ := h
      rcases List.mem_cons.1 hr0 with rfl | hr0
      · have h1 := updateRow_key_present r0.store_name r0.region
          (fun row =>
            { row with
              revenuePrev :=
                some ((row.revenuePrev.getD (JSNum.fin 0)).add r0.revenue),
              ordersPrev :=
                some ((row.ordersPrev.getD (JSNum.fin 0)).add r0.orders) })
          (fun x => ⟨rfl, rfl⟩) m
        obtain ⟨e1, he1, hk1, hk2⟩ := h1
        exact applyPrevRows_key_stable store region t _
          ⟨e1, he1, hk1.trans hk0.1, hk2.trans hk0.2⟩
      · exact applyPrevRows_key_present store region t _ ⟨r0, hr0, hk0⟩

theorem applyPrevRows_zeroCur (store region : String) :
    ∀ (rows : List MatrixRawRow) (m : List MatrixRow),
      (∀ e ∈ m, e.store_name = store → e.region = region →
        e.revenueCurrent = JSNum.fin 0 ∧ e.ordersCurrent = JSNum.fin 0) →
      ∀ e ∈ applyPrevRows rows m, e.store_name = store →
        e.region = region →
        e.revenueCurrent = JSNum.fin 0 ∧ e.ordersCurrent = JSNum.fin 0
  | [], _, h => h
  | r :: t, m, h => by
      refine applyPrevRows_zeroCur store region t _ ?_
      refine updateRow_forall r.store_name r.region _ ?_ ?_ m h
      · intro x hx h1 h2
        exact hx h1 h2
      · intro _ _
        exact ⟨rfl, rfl⟩

theorem applyCurrentRows_no_key (store region : String) :
    ∀ (rows : List MatrixRawRow),
      (∀ r ∈ rows, ¬(r.store_name = store ∧ r.region = region)) →
      ∀ (m : List MatrixRow),
        (∀ e ∈ m, ¬(e.store_name = store ∧ e.region = region)) →
        ∀ e ∈ applyCurrentRows rows m,
          ¬(e.store_name = store ∧ e.region = region)
  | [], _, _, hm => hm
  | r :: t, hr, m, hm => by
      refine applyCurrentRows_no_key store region t
        (fun x hx => hr x (by simp [hx])) _ ?_
      refine updateRow_forall r.store_name r.region _ ?_ ?_ m hm
      · intro x hx
        exact hx
      · exact hr r (by simp)

end MatrixLemmas

/-- C9: a store that has (region- and platform-matching) raw rows only
in the previous month, and none in the selected month, still appears
in the platform-matrix table, with `revenueCurrent = 0`,
`ordersCurrent = 0` and `aovCurrent = 0`. -/
theorem C9_prev_only_store (months : List String)
    (rawRows : List MatrixRawRow)
    (selectedRegion selectedMonth prevMonth store platformFilter : String)
    (h1 : selectedMonth ≠ "")
    (h2 : selectedMonth ∈ months)
    (h3 : 0 < months.indexOf selectedMonth)
    (h4 : months[months.indexOf selectedMonth - 1]? = some prevMonth)
    (h5 : ∃ r ∈ rawRows, r.region = selectedRegion ∧ r.month = prevMonth ∧
      matchPlatform platformFilter r.platform = true ∧
      r.store_name = store)
    (h6 : ∀ r ∈ rawRows, r.region = selectedRegion →
      r.store_name = store → r.month = selectedMonth →
      matchPlatform platformFilter r.platform = true → False) :
    ∃ row ∈ tableRows months rawRows selectedRegion selectedMonth
        platformFilter,
      row.store_name = store ∧ row.region = selectedRegion ∧
      row.revenueCurrent = JSNum.fin 0 ∧ row.ordersCurrent = JSNum.fin 0 ∧
      row.aovCurrent = JSNum.fin 0 := by
  have hne : ¬(selectedMonth = "" ∨ months.isEmpty = true) := by
    rintro (h | h)
    · exact h1 h
    · rw [List.isEmpty_iff] at h
      subst h
      exact List.not_mem_nil _ h2
  have htab : tableRows months rawRows selectedRegion selectedMonth
      platformFilter
      = jsSort (fun a b => strCmp a.store_name b.store_name)
        ((applyPrevRows
            (prevMatrixRows months rawRows selectedRegion selectedMonth
              platformFilter)
            (applyCurrentRows
              (currentMatrixRows rawRows selectedRegion selectedMonth
                platformFilter)
              [])).map finalizeRow) := by
    unfold tableRows
    rw [if_neg hne, if_neg (by simp [h2])]
  have hprevOf : prevOfIndex months selectedMonth = some prevMonth := by
    unfold prevOfIndex
    rw [if_pos h3, h4]
  have hprevRows : prevMatrixRows months rawRows selectedRegion
      selectedMonth platformFilter
      = rawRows.filter (fun r =>
          r.region == selectedRegion && r.month == prevMonth &&
            matchPlatform platformFilter r.platform) := by
    unfold prevMatrixRows
    rw [hprevOf]
  obtain ⟨r0, hr0mem, hr0reg, hr0mon, hr0plat, hr0store⟩ := h5
  have hr0in : r0 ∈ prevMatrixRows months rawRows selectedRegion
      selectedMonth platformFilter := by
    rw [hprevRows]
    refine List.mem_filter.2 ⟨hr0mem, ?_⟩
    simp [hr0reg, hr0mon, hr0plat]
  have hnocur : ∀ r ∈ currentMatrixRows rawRows selectedRegion
      selectedMonth platformFilter,
      ¬(r.store_name = store ∧ r.region = selectedRegion) := by
    intro r hr hk
    have h := List.mem_filter.1 hr
    have hcond := h.2
    simp only [Bool.and_eq_true, beq_iff_eq] at hcond
    exact h6 r h.1 hcond.1.1 hk.1 hcond.1.2 hcond.2
  have hm1 : ∀ e ∈ applyCurrentRows
      (currentMatrixRows rawRows selectedRegion selectedMonth
        platformFilter) [],
      ¬(e.store_name = store ∧ e.region = selectedRegion) :=
    applyCurrentRows_no_key store selectedRegion _ hnocur [] (by simp)
  have hZ := applyPrevRows_zeroCur store selectedRegion
    (prevMatrixRows months rawRows selectedRegion selectedMonth
      platformFilter)
    (applyCurrentRows
      (currentMatrixRows rawRows selectedRegion selectedMonth
        platformFilter) [])
    (fun e he hs hr => absurd ⟨hs, hr⟩ (hm1 e he))
  obtain ⟨e, he, hks, hkr⟩ := applyPrevRows_key_present store
    selectedRegion
    (prevMatrixRows months rawRows selectedRegion selectedMonth
      platformFilter)
    (applyCurrentRows
      (currentMatrixRows rawRows selectedRegion selectedMonth
        platformFilter) [])
    ⟨r0, hr0in, hr0store, hr0reg⟩
  have hz := hZ e he hks hkr
  refine ⟨finalizeRow e, ?_, hks, hkr, hz.1, hz.2, ?_⟩
  · rw [htab, mem_jsSort]
    exact List.mem_map_of_mem finalizeRow he
  · show (if e.ordersCurrent.gt (JSNum.fin 0) then
        e.revenueCurrent.div e.ordersCurrent
      else JSNum.fin 0) = JSNum.fin 0
    rw [hz.2]
    simp [JSNum.gt]

/-- C9 witness: with one raw row in January only, selecting February
still lists the store, with zero current revenue, orders and AOV. -/
theorem C9_prev_only_store_witness :
    ∃ row ∈ tableRows ["2025-01", "2025-02"]
        [⟨"2025-01", "BC", "Store P", "UBER", JSNum.fin 100,
          JSNum.fin 10⟩]
        "BC" "2025-02" "ALL",
      row.store_name = "Store P" ∧ row.region = "BC" ∧
      row.revenueCurrent = JSNum.fin 0 ∧ row.ordersCurrent = JSNum.fin 0 ∧
      row.aovCurrent = JSNum.fin 0 := by
  refine C9_prev_only_store ["2025-01", "2025-02"]
    [⟨"2025-01", "BC", "Store P", "UBER", JSNum.fin 100, JSNum.fin 10⟩]
    "BC" "2025-02" "2025-01" "Store P" "ALL"
    (by decide) (by decide) (by decide) (by decide) ?_ ?_
  · exact ⟨⟨"2025-01", "BC", "Store P", "UBER", JSNum.fin 100,
      JSNum.fin 10⟩, by simp, rfl, rfl, by decide, rfl⟩
  · intro r hr hreg hstore hmon hplat
    simp only [List.mem_singleton] at hr
    subst hr
    exact absurd hmon (by decide)

end Dashboard
